import Mathlib

/-!
# dbr: the union builder (`union.go`)

A shallow embedding of `union.go` from the `dbr` SQL builder, with the
statements about `union.Build` that the specification makes.

Go values are embedded as follows.

* `Buffer` (an interface: SQL text plus bound values) is a record of the text
  written so far and the argument list; `WriteString` appends to the text.
* `Builder` (an interface with one method `Build(Dialect, Buffer) error`) is a
  function.  A Go builder is an object that may carry state of its own, so the
  function also threads a world state `σ`; the error result is `Option ε`
  with `none` for `nil`.
* `*union` methods take the receiver as an argument; `OrderBy` and `Limit`
  hand back the updated receiver, `Build` hands back the receiver next to its
  outcome.
* `uint` is `Nat`: `union.go` stores and prints the limit and does no
  arithmetic on it.
-/

namespace dbr

/-! ## Data model -/

/-- Modelled from the spec: the `Dialect` values of package `dialect`, which
is not part of `union.go`.  The spec calls them a small closed enumeration
(MySQL, PostgreSQL, SQLite); `union.Build` only compares with `MySQL`. -/
inductive Dialect where
  | MySQL
  | PostgreSQL
  | SQLite3
  deriving DecidableEq, Repr

/-- Modelled from the spec: the `Buffer` interface, declared outside
`union.go`.  It accumulates the SQL text and, in parallel, the ordered list
of values to bind. -/
structure Buffer (V : Type) where
  text : String
  args : List V
  deriving DecidableEq, Repr

/-- A fresh buffer, as `NewBuffer()` returns it. -/
def NewBuffer {V : Type} : Buffer V := ⟨"", []⟩

/-- The call `buf.WriteString(s)`: append raw text. -/
def Buffer.WriteString {V : Type} (buf : Buffer V) (s : String) : Buffer V :=
  { buf with text := buf.text ++ s }

/-- The call `buf.WriteValue(v...)`: append bound values. -/
def Buffer.WriteValue {V : Type} (buf : Buffer V) (v : List V) : Buffer V :=
  { buf with args := buf.args ++ v }

/-- What a call of `Build` leaves behind: the returned `error` (`none` is
`nil`), the buffer, and the state of the world outside the buffer. -/
structure Outcome (σ ε V : Type) where
  err : Option ε
  buf : Buffer V
  world : σ

/-- Modelled from the spec: the `Builder` interface, declared outside
`union.go`: "given a dialect and a buffer, append this node's SQL into the
buffer or fail". -/
abbrev Builder (σ ε V : Type) : Type := Dialect → Buffer V → σ → Outcome σ ε V

/-- The Go struct `orderBy`, `union.go` lines 9-12. -/
structure orderBy where
  col : String
  asc : Bool
  deriving DecidableEq, Repr

/-- The Go struct `union`, `union.go` lines 14-19. -/
structure union (σ ε V : Type) where
  builder : List (Builder σ ε V)
  all : Bool
  orderBy : List orderBy
  limit : Nat

/-- The result of `(*union).Build`: its outcome, and the receiver as the call
leaves it. -/
structure BuildResult (σ ε V : Type) extends Outcome σ ε V where
  node : union σ ε V

/-! ## Operations -/

section Operations

variable {σ ε V : Type}

/-- The function `Union`, `union.go` lines 22-27. -/
def Union (builder : List (Builder σ ε V)) : union σ ε V :=
  { builder := builder, all := false, orderBy := [], limit := 0 }

/-- The function `UnionAll`, `union.go` lines 30-36. -/
def UnionAll (builder : List (Builder σ ε V)) : union σ ε V :=
  { builder := builder, all := true, orderBy := [], limit := 0 }

/-- The method `OrderBy`, `union.go` lines 38-44. -/
def union.OrderBy (u : union σ ε V) (col : String) (asc : Bool) : union σ ε V :=
  { u with orderBy := u.orderBy ++ [{ col := col, asc := asc }] }

/-- The method `Limit`, `union.go` lines 46-49. -/
def union.Limit (u : union σ ε V) (limit : Nat) : union σ ε V :=
  { u with limit := limit }

/-- The member loop of `Build`, `union.go` lines 52-69, from index `i` on.
The closing parenthesis is written before the error is looked at. -/
def union.buildLoop (all : Bool) (d : Dialect) :
    Nat → List (Builder σ ε V) → Buffer V → σ → Outcome σ ε V
  | _, [], buf, s => ⟨none, buf, s⟩
  | i, b :: rest, buf, s =>
    let buf₁ :=
      if i > 0 then
        let w := buf.WriteString " UNION "
        if all then w.WriteString "ALL " else w
      else buf
    let buf₂ := if d = Dialect.MySQL then buf₁.WriteString "( " else buf₁
    let r := b d buf₂ s
    let buf₃ := if d = Dialect.MySQL then r.buf.WriteString " )" else r.buf
    match r.err with
    | some e => ⟨some e, buf₃, r.world⟩
    | none => union.buildLoop all d (i + 1) rest buf₃ r.world

/-- The call `fmt.Sprintf("%s %s", order.col, dir)` of `union.go` lines
75-81, `dir` being `"ASC"` or `"DESC"`. -/
def orderBy.render (order : orderBy) : String :=
  order.col ++ " " ++ (if order.asc then "ASC" else "DESC")

/-- Go's `strings.Join(elems, sep)`: nothing for no element, else the first
element followed by `sep` and the next element for each further one. -/
def stringsJoin (elems : List String) (sep : String) : String :=
  match elems with
  | [] => ""
  | e :: rest => rest.foldl (fun acc s => acc ++ sep ++ s) e

/-- The call `fmt.Sprintf(" LIMIT %d", limit)` of `union.go` line 87. -/
def sprintfLimit (limit : Nat) : String :=
  " LIMIT " ++ Nat.repr limit

/-- The tail of `Build`, `union.go` lines 70-89: the ORDER BY and LIMIT
clauses. -/
def union.buildTail (u : union σ ε V) (buf : Buffer V) : Buffer V :=
  let buf₁ :=
    if u.orderBy.length > 0 then
      (buf.WriteString " ORDER BY ").WriteString
        (stringsJoin (u.orderBy.map orderBy.render) ", ")
    else buf
  if u.limit > 0 then buf₁.WriteString (sprintfLimit u.limit) else buf₁

/-- The method `Build`, `union.go` lines 51-90. -/
def union.Build (u : union σ ε V) (d : Dialect) (buf : Buffer V) (s : σ) :
    BuildResult σ ε V :=
  let r := union.buildLoop u.all d 0 u.builder buf s
  match r.err with
  | some e => { err := some e, buf := r.buf, world := r.world, node := u }
  | none => { err := none, buf := u.buildTail r.buf, world := r.world, node := u }

/-- A `*union` is itself a `Builder`. -/
def union.toBuilder (u : union σ ε V) : Builder σ ε V :=
  fun d buf s => (u.Build d buf s).toOutcome

end Operations

/-! ## Specification vocabulary

The words the specification uses for the output of `Build`, written down
independently of the loop above. -/

section Vocabulary

variable {σ ε V : Type}

/-- What a member appends when it is built: its text, its bound values and
the error it returns. -/
structure Rendering (ε V : Type) where
  text : String
  args : List V
  err : Option ε

/-- Member `b` renders `o` under dialect `d`: whatever buffer and world it is
handed, it appends `o.text` and `o.args` and returns `o.err`. -/
def Renders (d : Dialect) (b : Builder σ ε V) (o : Rendering ε V) : Prop :=
  ∀ buf s, (b d buf s).err = o.err ∧
    (b d buf s).buf = ⟨buf.text ++ o.text, buf.args ++ o.args⟩

/-- Member `b` builds successfully under dialect `d`: its `Build` returns
`nil`, whatever it is handed. -/
def Succeeds (d : Dialect) (b : Builder σ ε V) : Prop :=
  ∀ buf s, (b d buf s).err = none

/-- Member `b` fails with the error `e` under dialect `d`, whatever it is
handed. -/
def FailsWith (d : Dialect) (b : Builder σ ε V) (e : ε) : Prop :=
  ∀ buf s, (b d buf s).err = some e

/-- The separator between two members: ` UNION ` or ` UNION ALL `. -/
def SEP (all : Bool) : String :=
  if all then " UNION ALL " else " UNION "

/-- The dialect's wrapper around one member's text. -/
def wrapMember (d : Dialect) (t : String) : String :=
  if d = Dialect.MySQL then "( " ++ t ++ " )" else t

/-- The texts `x0 ++ sep ++ x1 ++ ... ++ sep ++ x(n-1)`: a separator between
neighbours, none before the first or after the last. -/
def joined (sep : String) : List String → String
  | [] => ""
  | [x] => x
  | x :: y :: rest => x ++ sep ++ joined sep (y :: rest)

/-- Every text preceded by the separator. -/
def sepBefore (sep : String) : List String → String
  | [] => ""
  | x :: rest => sep ++ x ++ sepBefore sep rest

/-- The members that get built: all up to and including the first that
fails. -/
def built : List (Rendering ε V) → List (Rendering ε V)
  | [] => []
  | o :: rest => if o.err.isSome then [o] else o :: built rest

/-- The error of the first member that fails, `none` when none does. -/
def firstError : List (Rendering ε V) → Option ε
  | [] => none
  | o :: rest =>
    match o.err with
    | some e => some e
    | none => firstError rest

/-- The member part of the output: the wrapped texts of the members built,
with the separator between them. -/
def memberPart (all : Bool) (d : Dialect) (outs : List (Rendering ε V)) : String :=
  joined (SEP all) ((built outs).map (fun o => wrapMember d o.text))

/-- The arguments of the members built, in member order. -/
def memberArgs (outs : List (Rendering ε V)) : List V :=
  ((built outs).map (fun o => o.args)).flatten

/-- One ORDER BY entry: the column, then ` ASC` or ` DESC`. -/
def orderEntry (o : orderBy) : String :=
  if o.asc then o.col ++ " ASC" else o.col ++ " DESC"

/-- The ORDER BY clause: nothing for no entry, else ` ORDER BY ` and the
entries joined by `, `. -/
def orderByClause (entries : List orderBy) : String :=
  match entries with
  | [] => ""
  | _ :: _ => " ORDER BY " ++ joined ", " (entries.map orderEntry)

/-- The LIMIT clause: nothing for limit 0, else ` LIMIT ` and the number in
decimal. -/
def limitClause (n : Nat) : String :=
  if n > 0 then " LIMIT " ++ Nat.repr n else ""

/-- The buffer handed to the member at index `i`: `union.go` lines 53-61,
the separator for `i > 0` and the opening parenthesis under MySQL. -/
def beforeMember (all : Bool) (d : Dialect) (i : Nat) (buf : Buffer V) : Buffer V :=
  let buf₁ :=
    if i > 0 then
      let w := buf.WriteString " UNION "
      if all then w.WriteString "ALL " else w
    else buf
  if d = Dialect.MySQL then buf₁.WriteString "( " else buf₁

/-- The buffer once the member has returned: `union.go` lines 63-65, the
closing parenthesis under MySQL. -/
def afterMember (d : Dialect) (buf : Buffer V) : Buffer V :=
  if d = Dialect.MySQL then buf.WriteString " )" else buf

/-- The call of member `m`'s `Build` that `union.Build` makes once the
members `pre` before it have been built: the buffer and world are those the
loop over `pre` left, with the separator and opening parenthesis written. -/
def callAfter (all : Bool) (d : Dialect) (pre : List (Builder σ ε V)) (m : Builder σ ε V)
    (buf : Buffer V) (s : σ) : Outcome σ ε V :=
  m d (beforeMember all d pre.length (union.buildLoop all d 0 pre buf s).buf)
    (union.buildLoop all d 0 pre buf s).world

/-- Member `b` is deterministic: the error it returns and what it writes do
not depend on the state of the world it is built in. -/
def Deterministic (b : Builder σ ε V) : Prop :=
  ∀ d buf s s', (b d buf s).err = (b d buf s').err ∧ (b d buf s).buf = (b d buf s').buf

/-- Modelled from the spec: the placeholder marker, which the buffer code
outside `union.go` writes, is `?` as in the spec's compiled texts
(`a = ? AND (b > ? OR b <= ?)`).  This counts the markers in a text. -/
def placeholders (t : String) : Nat :=
  t.data.count '?'

/-- The characters of a text with each placeholder replaced by the encoding
of the argument bound to it: the Nth placeholder takes the Nth argument; a
placeholder with no argument left stays. -/
def bindChars (enc : V → List Char) : List Char → List V → List Char
  | [], _ => []
  | c :: cs, args =>
    if c = '?' then
      match args with
      | [] => c :: bindChars enc cs []
      | a :: rest => enc a ++ bindChars enc cs rest
    else c :: bindChars enc cs args

/-- Modelled from the spec: the binding of placeholders to arguments, "the
Nth placeholder written into the text corresponds to the Nth value in the
argument sequence"; the code that binds is not part of `union.go`.  The
result is the text with every placeholder replaced by the encoding `enc` of
the argument it is bound to. -/
def bound (enc : V → String) (t : String) (args : List V) : String :=
  ⟨bindChars (fun v => (enc v).data) t.data args⟩

/-- The ORDER BY and LIMIT clauses, written only when no member failed. -/
def clausePart (entries : List orderBy) (limit : Nat) (outs : List (Rendering ε V)) : String :=
  if (firstError outs).isSome then "" else orderByClause entries ++ limitClause limit

/-- The content of `a` followed by the content of `b`. -/
def Buffer.append (a b : Buffer V) : Buffer V :=
  ⟨a.text ++ b.text, a.args ++ b.args⟩

/-- The outcome `o` of a build into an empty buffer, replayed on the buffer
`buf`: same error and world, and what was written comes after the content of
`buf`. -/
def replayAfter (buf : Buffer V) (o : Outcome σ ε V) : Outcome σ ε V :=
  ⟨o.err, buf.append o.buf, o.world⟩

/-- Member `b` only appends to the buffer: writing is all it does with the
buffer, so on any buffer it returns the error, leaves the world and writes
the text and arguments that it does on an empty buffer, after what was
there. -/
def OnlyAppends (b : Builder σ ε V) : Prop :=
  ∀ d buf s, b d buf s = replayAfter buf (b d NewBuffer s)

end Vocabulary

/-! ## Sample builders -/

/-- A member that writes `SELECT *` and succeeds. -/
def selectStar : Builder Nat String Nat :=
  fun _ buf s => ⟨none, buf.WriteString "SELECT *", s⟩

/-- What `selectStar` renders. -/
def selectStarOut : Rendering String Nat := ⟨"SELECT *", [], none⟩

/-- A member that writes a statement with one placeholder and binds the
value `7` to it. -/
def selectById : Builder Nat String Nat :=
  fun _ buf s => ⟨none, (buf.WriteString "SELECT * FROM t WHERE id = ?").WriteValue [7], s⟩

/-- What `selectById` renders. -/
def selectByIdOut : Rendering String Nat := ⟨"SELECT * FROM t WHERE id = ?", [7], none⟩

/-- A member that writes `SELECT` and then fails. -/
def failSelect : Builder Nat String Nat :=
  fun _ buf s => ⟨some "unsupported value", buf.WriteString "SELECT", s⟩

/-- A member that counts in the world how often it was built; what it writes
does not depend on the count. -/
def countingSelect : Builder Nat String Nat :=
  fun _ buf s => ⟨none, buf.WriteString "SELECT *", s + 1⟩

/-- A member that writes a statement with two placeholders and binds `18`
and `65` to them. -/
def selectByAge : Builder Nat String Nat :=
  fun _ buf s =>
    ⟨none, (buf.WriteString "SELECT * FROM t WHERE age > ? AND age < ?").WriteValue [18, 65], s⟩

/-- What `selectByAge` renders. -/
def selectByAgeOut : Rendering String Nat :=
  ⟨"SELECT * FROM t WHERE age > ? AND age < ?", [18, 65], none⟩

/-- A union whose members change the world but write the same whatever its
state. -/
def countingUnion : union Nat String Nat :=
  ((UnionAll [countingSelect, selectById]).OrderBy "id" true).Limit 3

/-- A union whose members bind three values in all. -/
def boundUnion : union Nat String Nat :=
  ((Union [selectById, selectStar, selectByAge]).OrderBy "id" false).Limit 10

/-- A union with a failing member in the middle, an order-by entry and a
limit. -/
def failingUnion : union Nat String Nat :=
  ((Union [selectStar, failSelect, countingSelect]).OrderBy "id" true).Limit 5

/-- A union made with no member at all, with an order-by entry and a
limit. -/
def emptyUnion : union Nat String Nat :=
  ((Union []).OrderBy "id" true).Limit 5

/-- A union whose first member is itself a union, over two members. -/
def nestedUnion : union Nat String Nat :=
  (({ builder := (UnionAll [selectStar, selectById]).toBuilder :: [selectByAge, failSelect],
      all := true, orderBy := [], limit := 0 } : union Nat String Nat).OrderBy "id" true).Limit 4

/-- The flat union over the same members as `nestedUnion`. -/
def flatUnion : union Nat String Nat :=
  ((UnionAll [selectStar, selectById, selectByAge, failSelect]).OrderBy "id" true).Limit 4

/-! ## The member loop -/

section Loop

variable {σ ε V : Type}

theorem joined_cons (sep x : String) (l : List String) :
    joined sep (x :: l) = x ++ sepBefore sep l := by
  induction l generalizing x with
  | nil => simp [joined, sepBefore]
  | cons y rest ih => simp [joined, sepBefore, ih, String.append_assoc]

theorem buildLoop_index (all : Bool) (d : Dialect) (bs : List (Builder σ ε V)) :
    ∀ (i : Nat) (buf : Buffer V) (s : σ),
      union.buildLoop all d (i + 1) bs buf s = union.buildLoop all d 1 bs buf s := by
  induction bs with
  | nil => intro i buf s; simp [union.buildLoop]
  | cons b rest ih =>
    intro i buf s
    simp only [union.buildLoop, Nat.succ_pos, gt_iff_lt, if_true, Nat.lt_one_iff,
      Nat.zero_lt_one]
    cases h : (b d _ s).err <;> simp [h, ih (i + 1), ih 1]

theorem buildLoop_cons_some (all : Bool) (d : Dialect) (i : Nat) (b : Builder σ ε V)
    (rest : List (Builder σ ε V)) (buf : Buffer V) (s : σ) (e : ε)
    (h : (b d (beforeMember all d i buf) s).err = some e) :
    union.buildLoop all d i (b :: rest) buf s =
      ⟨some e, afterMember d (b d (beforeMember all d i buf) s).buf,
        (b d (beforeMember all d i buf) s).world⟩ := by
  simp only [beforeMember] at h
  simp only [union.buildLoop, beforeMember, afterMember, h]

theorem buildLoop_cons_none (all : Bool) (d : Dialect) (i : Nat) (b : Builder σ ε V)
    (rest : List (Builder σ ε V)) (buf : Buffer V) (s : σ)
    (h : (b d (beforeMember all d i buf) s).err = none) :
    union.buildLoop all d i (b :: rest) buf s =
      union.buildLoop all d (i + 1) rest
        (afterMember d (b d (beforeMember all d i buf) s).buf)
        (b d (beforeMember all d i buf) s).world := by
  simp only [beforeMember] at h
  simp only [union.buildLoop, beforeMember, afterMember, h]

theorem beforeMember_text (all : Bool) (d : Dialect) (i : Nat) (buf : Buffer V) :
    beforeMember all d i buf =
      ⟨buf.text ++ (if i > 0 then SEP all else "") ++ (if d = Dialect.MySQL then "( " else ""),
        buf.args⟩ := by
  cases all <;> by_cases hi : i > 0 <;> by_cases hd : d = Dialect.MySQL <;>
    simp [beforeMember, Buffer.WriteString, SEP, hi, hd, String.append_assoc]

theorem buildLoop_append_some (all : Bool) (d : Dialect) (pre post : List (Builder σ ε V)) :
    ∀ (i : Nat) (buf : Buffer V) (s : σ) (e : ε),
      (union.buildLoop all d i pre buf s).err = some e →
      union.buildLoop all d i (pre ++ post) buf s = union.buildLoop all d i pre buf s := by
  induction pre with
  | nil => intro i buf s e h; simp [union.buildLoop] at h
  | cons b rest ih =>
    intro i buf s e h
    cases hb : (b d (beforeMember all d i buf) s).err with
    | some e' =>
      rw [List.cons_append, buildLoop_cons_some all d i b _ buf s e' hb,
        buildLoop_cons_some all d i b _ buf s e' hb]
    | none =>
      rw [buildLoop_cons_none all d i b _ buf s hb] at h
      rw [List.cons_append, buildLoop_cons_none all d i b _ buf s hb,
        buildLoop_cons_none all d i b _ buf s hb]
      exact ih _ _ _ e h

theorem buildLoop_append_none (all : Bool) (d : Dialect) (pre post : List (Builder σ ε V)) :
    ∀ (i : Nat) (buf : Buffer V) (s : σ),
      (union.buildLoop all d i pre buf s).err = none →
      union.buildLoop all d i (pre ++ post) buf s =
        union.buildLoop all d (i + pre.length) post
          (union.buildLoop all d i pre buf s).buf (union.buildLoop all d i pre buf s).world := by
  induction pre with
  | nil => intro i buf s _; simp [union.buildLoop]
  | cons b rest ih =>
    intro i buf s h
    cases hb : (b d (beforeMember all d i buf) s).err with
    | some e' =>
      rw [buildLoop_cons_some all d i b _ buf s e' hb] at h
      simp at h
    | none =>
      rw [buildLoop_cons_none all d i b _ buf s hb] at h
      rw [List.cons_append, buildLoop_cons_none all d i b _ buf s hb,
        buildLoop_cons_none all d i b _ buf s hb, ih _ _ _ h, List.length_cons]
      congr 1
      omega

theorem buildLoop_succeeds (all : Bool) (d : Dialect) (bs : List (Builder σ ε V))
    (hok : ∀ b ∈ bs, Succeeds d b) :
    ∀ (i : Nat) (buf : Buffer V) (s : σ), (union.buildLoop all d i bs buf s).err = none := by
  induction bs with
  | nil => intro i buf s; rfl
  | cons b rest ih =>
    intro i buf s
    rw [buildLoop_cons_none all d i b _ buf s (hok b (List.mem_cons_self _ _) _ _)]
    exact ih (fun x hx => hok x (List.mem_cons_of_mem _ hx)) _ _ _

/-- The loop stops at the first member that fails: what follows it is not
looked at. -/
theorem buildLoop_first_failure (all : Bool) (d : Dialect) (pre : List (Builder σ ε V))
    (m : Builder σ ε V) (post : List (Builder σ ε V)) (e : ε)
    (hpre : ∀ b ∈ pre, Succeeds d b) (hm : FailsWith d m e) (i : Nat) (buf : Buffer V) (s : σ) :
    (union.buildLoop all d i (pre ++ [m]) buf s).err = some e ∧
    union.buildLoop all d i (pre ++ m :: post) buf s =
      union.buildLoop all d i (pre ++ [m]) buf s := by
  have h1 : (union.buildLoop all d i (pre ++ [m]) buf s).err = some e := by
    rw [buildLoop_append_none all d pre [m] i buf s (buildLoop_succeeds all d pre hpre i buf s),
      buildLoop_cons_some all d _ m [] _ _ e (hm _ _)]
  refine ⟨h1, ?_⟩
  have hsplit : pre ++ m :: post = (pre ++ [m]) ++ post := by simp
  rw [hsplit, buildLoop_append_some all d (pre ++ [m]) post i buf s e h1]

theorem buildLoop_fails_iff (all : Bool) (d : Dialect) (bs : List (Builder σ ε V))
    (hdet : ∀ b ∈ bs, Succeeds d b ∨ ∃ e, FailsWith d b e) :
    ∀ (i : Nat) (buf : Buffer V) (s : σ),
      (union.buildLoop all d i bs buf s).err ≠ none ↔ ∃ b ∈ bs, ∃ e, FailsWith d b e := by
  induction bs with
  | nil => intro i buf s; simp [union.buildLoop]
  | cons b rest ih =>
    intro i buf s
    have hrest := ih (fun x hx => hdet x (List.mem_cons_of_mem _ hx))
    rcases hdet b (List.mem_cons_self _ _) with hs | ⟨e, hf⟩
    · rw [buildLoop_cons_none all d i b _ buf s (hs _ _), hrest]
      constructor
      · rintro ⟨x, hx, e, hxe⟩
        exact ⟨x, List.mem_cons_of_mem _ hx, e, hxe⟩
      · rintro ⟨x, hx, e, hxe⟩
        rcases List.mem_cons.mp hx with rfl | hx'
        · have := hxe buf s
          rw [hs buf s] at this
          cases this
        · exact ⟨x, hx', e, hxe⟩
    · rw [buildLoop_cons_some all d i b _ buf s e (hf _ _)]
      simp only [ne_eq, reduceCtorEq, not_false_eq_true, true_iff]
      exact ⟨b, List.mem_cons_self _ _, e, hf⟩

theorem Build_err (u : union σ ε V) (d : Dialect) (buf : Buffer V) (s : σ) :
    (u.Build d buf s).err = (union.buildLoop u.all d 0 u.builder buf s).err := by
  unfold union.Build
  cases h : (union.buildLoop u.all d 0 u.builder buf s).err <;> simp [h]

theorem Build_of_loop_some (u : union σ ε V) (d : Dialect) (buf : Buffer V) (s : σ) (e : ε)
    (h : (union.buildLoop u.all d 0 u.builder buf s).err = some e) :
    (u.Build d buf s).toOutcome = union.buildLoop u.all d 0 u.builder buf s := by
  unfold union.Build
  simp only [h]
  rw [← h]

theorem Build_first_failure (u : union σ ε V) (d : Dialect) (pre : List (Builder σ ε V))
    (m : Builder σ ε V) (post : List (Builder σ ε V)) (e : ε) (buf : Buffer V) (s : σ)
    (hsplit : u.builder = pre ++ m :: post)
    (hpre : (union.buildLoop u.all d 0 pre buf s).err = none)
    (hm : (callAfter u.all d pre m buf s).err = some e) :
    (u.Build d buf s).toOutcome =
      ⟨some e, afterMember d (callAfter u.all d pre m buf s).buf,
        (callAfter u.all d pre m buf s).world⟩ := by
  have hloop : union.buildLoop u.all d 0 u.builder buf s =
      ⟨some e, afterMember d (callAfter u.all d pre m buf s).buf,
        (callAfter u.all d pre m buf s).world⟩ := by
    rw [hsplit, buildLoop_append_none u.all d pre (m :: post) 0 buf s hpre, Nat.zero_add]
    exact buildLoop_cons_some u.all d _ m post _ _ e hm
  rw [Build_of_loop_some u d buf s e (by rw [hloop]), hloop]

theorem buildLoop_deterministic (all : Bool) (d : Dialect) (bs : List (Builder σ ε V))
    (hdet : ∀ b ∈ bs, Deterministic b) :
    ∀ (i : Nat) (buf : Buffer V) (s s' : σ),
      (union.buildLoop all d i bs buf s).err = (union.buildLoop all d i bs buf s').err ∧
      (union.buildLoop all d i bs buf s).buf = (union.buildLoop all d i bs buf s').buf := by
  induction bs with
  | nil => intro i buf s s'; simp [union.buildLoop]
  | cons b rest ih =>
    intro i buf s s'
    obtain ⟨he, hb⟩ := hdet b (List.mem_cons_self _ _) d (beforeMember all d i buf) s s'
    cases h : (b d (beforeMember all d i buf) s).err with
    | some e =>
      have h' := h
      rw [he] at h'
      rw [buildLoop_cons_some all d i b _ buf s e h, buildLoop_cons_some all d i b _ buf s' e h',
        hb]
      exact ⟨rfl, rfl⟩
    | none =>
      have h' := h
      rw [he] at h'
      rw [buildLoop_cons_none all d i b _ buf s h, buildLoop_cons_none all d i b _ buf s' h', hb]
      exact ih (fun x hx => hdet x (List.mem_cons_of_mem _ hx)) _ _ _ _

theorem Build_deterministic (u : union σ ε V) (d : Dialect)
    (hdet : ∀ b ∈ u.builder, Deterministic b) (buf : Buffer V) (s s' : σ) :
    (u.Build d buf s).err = (u.Build d buf s').err ∧
    (u.Build d buf s).buf = (u.Build d buf s').buf := by
  obtain ⟨he, hb⟩ := buildLoop_deterministic u.all d u.builder hdet 0 buf s s'
  unfold union.Build
  cases h : (union.buildLoop u.all d 0 u.builder buf s).err with
  | some e =>
    have h' := h
    rw [he] at h'
    simp only [h, h', hb, and_self]
  | none =>
    have h' := h
    rw [he] at h'
    simp only [h, h', hb, and_self]

theorem Build_node (u : union σ ε V) (d : Dialect) (buf : Buffer V) (s : σ) :
    (u.Build d buf s).node = u := by
  unfold union.Build
  cases h : (union.buildLoop u.all d 0 u.builder buf s).err <;> simp [h]

theorem failingUnion_members (d : Dialect) :
    ∀ b ∈ failingUnion.builder, Succeeds d b ∨ ∃ e, FailsWith d b e := by
  intro b hb
  simp [failingUnion, Union, union.OrderBy, union.Limit] at hb
  rcases hb with rfl | rfl | rfl
  · exact Or.inl (fun _ _ => rfl)
  · exact Or.inr ⟨"unsupported value", fun _ _ => rfl⟩
  · exact Or.inl (fun _ _ => rfl)

theorem buildLoop_pos (all : Bool) (d : Dialect) {bs : List (Builder σ ε V)}
    {outs : List (Rendering ε V)} (h : List.Forall₂ (Renders d) bs outs) :
    ∀ (buf : Buffer V) (s : σ),
      (union.buildLoop all d 1 bs buf s).err = firstError outs ∧
      (union.buildLoop all d 1 bs buf s).buf =
        ⟨buf.text ++ sepBefore (SEP all) ((built outs).map (fun o => wrapMember d o.text)),
         buf.args ++ memberArgs outs⟩ := by
  induction h with
  | nil =>
    intro buf s
    simp [union.buildLoop, firstError, built, sepBefore, memberArgs]
  | @cons b o bs os hb _ ih =>
    intro buf s
    obtain ⟨he, hbuf⟩ := hb (beforeMember all d 1 buf) s
    cases hoe : o.err with
    | some e =>
      rw [hoe] at he
      rw [buildLoop_cons_some all d 1 b bs buf s e he, hbuf, beforeMember_text]
      refine ⟨by simp [firstError, hoe], ?_⟩
      by_cases hd : d = Dialect.MySQL <;>
        simp [afterMember, Buffer.WriteString, built, hoe, sepBefore, memberArgs, wrapMember,
          hd, String.append_assoc]
    | none =>
      rw [hoe] at he
      rw [buildLoop_cons_none all d 1 b bs buf s he, buildLoop_index]
      obtain ⟨ihe, ihb⟩ := ih (afterMember d (b d (beforeMember all d 1 buf) s).buf)
        (b d (beforeMember all d 1 buf) s).world
      refine ⟨by simp [firstError, hoe, ihe], ?_⟩
      rw [ihb, hbuf, beforeMember_text]
      by_cases hd : d = Dialect.MySQL <;>
        simp [afterMember, Buffer.WriteString, built, hoe, sepBefore, memberArgs, wrapMember,
          hd, String.append_assoc]

theorem buildLoop_zero (all : Bool) (d : Dialect) {bs : List (Builder σ ε V)}
    {outs : List (Rendering ε V)} (h : List.Forall₂ (Renders d) bs outs)
    (buf : Buffer V) (s : σ) :
    (union.buildLoop all d 0 bs buf s).err = firstError outs ∧
    (union.buildLoop all d 0 bs buf s).buf =
      ⟨buf.text ++ memberPart all d outs, buf.args ++ memberArgs outs⟩ := by
  cases h with
  | nil => simp [union.buildLoop, firstError, built, memberPart, memberArgs, joined]
  | @cons b o bs os hb hrest =>
    obtain ⟨he, hbuf⟩ := hb (beforeMember all d 0 buf) s
    cases hoe : o.err with
    | some e =>
      rw [hoe] at he
      rw [buildLoop_cons_some all d 0 b bs buf s e he, hbuf, beforeMember_text]
      refine ⟨by simp [firstError, hoe], ?_⟩
      by_cases hd : d = Dialect.MySQL <;>
        simp [afterMember, Buffer.WriteString, built, hoe, joined, memberPart, memberArgs,
          wrapMember, hd, String.append_assoc]
    | none =>
      rw [hoe] at he
      rw [buildLoop_cons_none all d 0 b bs buf s he]
      obtain ⟨ihe, ihb⟩ := buildLoop_pos all d hrest
        (afterMember d (b d (beforeMember all d 0 buf) s).buf)
        (b d (beforeMember all d 0 buf) s).world
      refine ⟨by simp [firstError, hoe, ihe], ?_⟩
      rw [Nat.zero_add, ihb, hbuf, beforeMember_text]
      by_cases hd : d = Dialect.MySQL <;>
        simp [afterMember, Buffer.WriteString, built, hoe, joined_cons, memberPart, memberArgs,
          wrapMember, hd, String.append_assoc]

theorem foldl_sep (sep : String) (rest : List String) :
    ∀ e : String, rest.foldl (fun acc s => acc ++ sep ++ s) e = e ++ sepBefore sep rest := by
  induction rest with
  | nil => intro e; simp [sepBefore]
  | cons x rest ih =>
    intro e
    rw [List.foldl_cons, ih, sepBefore]
    simp [String.append_assoc]

theorem stringsJoin_eq_joined (elems : List String) (sep : String) :
    stringsJoin elems sep = joined sep elems := by
  cases elems with
  | nil => rfl
  | cons e rest => simp [stringsJoin, foldl_sep, joined_cons]

theorem render_eq_orderEntry (o : orderBy) : o.render = orderEntry o := by
  cases h : o.asc <;> simp [orderBy.render, orderEntry, h, String.append_assoc]

theorem buildTail_eq (u : union σ ε V) (buf : Buffer V) :
    u.buildTail buf =
      ⟨buf.text ++ (orderByClause u.orderBy ++ limitClause u.limit), buf.args⟩ := by
  have hfun : orderBy.render = orderEntry := funext render_eq_orderEntry
  cases hob : u.orderBy with
  | nil =>
    by_cases hl : u.limit > 0 <;>
      simp [union.buildTail, hob, hl, orderByClause, limitClause, sprintfLimit,
        Buffer.WriteString]
  | cons o rest =>
    by_cases hl : u.limit > 0 <;>
      simp [union.buildTail, hob, hl, orderByClause, limitClause, sprintfLimit,
        Buffer.WriteString, stringsJoin_eq_joined, String.append_assoc, hfun]

/-- The whole of `Build` in the words of the specification, for members that
render fixed outputs. -/
theorem Build_eq (u : union σ ε V) (d : Dialect) {outs : List (Rendering ε V)}
    (h : List.Forall₂ (Renders d) u.builder outs) (buf : Buffer V) (s : σ) :
    (u.Build d buf s).err = firstError outs ∧
    (u.Build d buf s).buf =
      ⟨buf.text ++ (memberPart u.all d outs ++ clausePart u.orderBy u.limit outs),
        buf.args ++ memberArgs outs⟩ := by
  obtain ⟨he, hb⟩ := buildLoop_zero u.all d h buf s
  cases hfe : firstError outs with
  | some e =>
    rw [hfe] at he
    simp [union.Build, he, hb, clausePart, hfe]
  | none =>
    rw [hfe] at he
    simp [union.Build, he, hb, clausePart, hfe, buildTail_eq, String.append_assoc]

theorem built_of_ok {outs : List (Rendering ε V)} (hok : ∀ o ∈ outs, o.err = none) :
    built outs = outs := by
  induction outs with
  | nil => rfl
  | cons o rest ih =>
    have ho : o.err = none := hok o (List.mem_cons_self _ _)
    simp [built, ho, ih (fun x hx => hok x (List.mem_cons_of_mem _ hx))]

theorem firstError_of_ok {outs : List (Rendering ε V)} (hok : ∀ o ∈ outs, o.err = none) :
    firstError outs = none := by
  induction outs with
  | nil => rfl
  | cons o rest ih =>
    have ho : o.err = none := hok o (List.mem_cons_self _ _)
    simp [firstError, ho, ih (fun x hx => hok x (List.mem_cons_of_mem _ hx))]

/-- `Build` when every member succeeds. -/
theorem Build_ok (u : union σ ε V) (d : Dialect) {outs : List (Rendering ε V)}
    (h : List.Forall₂ (Renders d) u.builder outs) (hok : ∀ o ∈ outs, o.err = none)
    (buf : Buffer V) (s : σ) :
    (u.Build d buf s).err = none ∧
    (u.Build d buf s).buf.text =
      buf.text ++ (joined (SEP u.all) (outs.map (fun o => wrapMember d o.text)) ++
        (orderByClause u.orderBy ++ limitClause u.limit)) ∧
    (u.Build d buf s).buf.args = buf.args ++ (outs.map (fun o => o.args)).flatten := by
  obtain ⟨he, hb⟩ := Build_eq u d h buf s
  rw [he, hb]
  simp [memberPart, memberArgs, clausePart, built_of_ok hok, firstError_of_ok hok]

theorem map_wrapMember_other {d : Dialect} (hd : d ≠ Dialect.MySQL)
    (outs : List (Rendering ε V)) :
    outs.map (fun o => wrapMember d o.text) = outs.map (fun o => o.text) := by
  simp [wrapMember, hd]

theorem selectStar_renders (d : Dialect) : Renders d selectStar selectStarOut :=
  fun _ _ => ⟨rfl, by simp [selectStar, selectStarOut, Buffer.WriteString]⟩

theorem selectById_renders (d : Dialect) : Renders d selectById selectByIdOut :=
  fun _ _ => ⟨rfl, rfl⟩

end Loop

/-! ## Placeholders and their arguments -/

section Placeholders

variable {σ ε V : Type}

theorem placeholders_append (a b : String) :
    placeholders (a ++ b) = placeholders a + placeholders b := by
  simp [placeholders, String.data_append, List.count_append]

theorem bindChars_plain (enc : V → List Char) (x : List Char) (h : x.count '?' = 0) :
    ∀ args : List V, bindChars enc x args = x := by
  induction x with
  | nil => intro args; rfl
  | cons c cs ih =>
    intro args
    by_cases hc : c = '?'
    · subst hc
      simp at h
    · have hcs : cs.count '?' = 0 := by
        rw [List.count_cons] at h
        omega
      simp [bindChars, hc, ih hcs]

theorem bindChars_append (enc : V → List Char) (x y : List Char) :
    ∀ (a b : List V), x.count '?' = a.length →
      bindChars enc (x ++ y) (a ++ b) = bindChars enc x a ++ bindChars enc y b := by
  induction x with
  | nil =>
    intro a b h
    have ha : a = [] := List.length_eq_zero.mp (by simpa using h.symm)
    subst ha
    simp [bindChars]
  | cons c cs ih =>
    intro a b h
    by_cases hc : c = '?'
    · subst hc
      cases a with
      | nil => simp at h
      | cons a0 rest =>
        have hcs : cs.count '?' = rest.length := by simpa using h
        simp [bindChars, ih rest b hcs]
    · have hcs : cs.count '?' = a.length := by
        rw [List.count_cons] at h
        simpa [hc] using h
      simp [bindChars, hc, ih a b hcs]

theorem bound_append (enc : V → String) (x y : String) (a b : List V)
    (h : placeholders x = a.length) :
    bound enc (x ++ y) (a ++ b) = bound enc x a ++ bound enc y b := by
  apply String.ext
  simp only [bound, String.data_append]
  exact bindChars_append _ _ _ a b h

theorem bound_plain (enc : V → String) (x : String) (h : placeholders x = 0) (a : List V) :
    bound enc x a = x := by
  apply String.ext
  simp only [bound]
  exact bindChars_plain _ _ h a

theorem bound_plain_left (enc : V → String) (x y : String) (a : List V)
    (h : placeholders x = 0) : bound enc (x ++ y) a = x ++ bound enc y a := by
  have := bound_append enc x y [] a (by simpa using h)
  simpa [bound_plain enc x h] using this

theorem bound_plain_right (enc : V → String) (x y : String) (a : List V)
    (hx : placeholders x = a.length) (hy : placeholders y = 0) :
    bound enc (x ++ y) a = bound enc x a ++ y := by
  have := bound_append enc x y a [] hx
  simpa [bound_plain enc y hy] using this

theorem placeholders_wrapMember (d : Dialect) (t : String) :
    placeholders (wrapMember d t) = placeholders t := by
  by_cases hd : d = Dialect.MySQL
  · have h1 : placeholders "( " = 0 := by decide
    have h2 : placeholders " )" = 0 := by decide
    simp [wrapMember, hd, placeholders_append, h1, h2]
  · simp [wrapMember, hd]

theorem bound_wrapMember (enc : V → String) (d : Dialect) (t : String) (a : List V)
    (h : placeholders t = a.length) :
    bound enc (wrapMember d t) a = wrapMember d (bound enc t a) := by
  by_cases hd : d = Dialect.MySQL
  · have h1 : placeholders "( " = 0 := by decide
    have h2 : placeholders " )" = 0 := by decide
    simp only [wrapMember, hd, if_true]
    rw [String.append_assoc, bound_plain_left enc _ _ _ h1, bound_plain_right enc _ _ _ h h2,
      String.append_assoc]
  · simp [wrapMember, hd]

theorem placeholders_SEP (all : Bool) : placeholders (SEP all) = 0 := by
  cases all <;> decide

theorem sepBefore_bound (enc : V → String) (sep : String) (hsep : placeholders sep = 0)
    (d : Dialect) (L : List (Rendering ε V))
    (hL : ∀ o ∈ L, placeholders o.text = o.args.length) :
    placeholders (sepBefore sep (L.map (fun o => wrapMember d o.text))) =
      ((L.map (fun o => o.args)).flatten).length ∧
    bound enc (sepBefore sep (L.map (fun o => wrapMember d o.text)))
        ((L.map (fun o => o.args)).flatten) =
      sepBefore sep (L.map (fun o => wrapMember d (bound enc o.text o.args))) := by
  induction L with
  | nil => exact ⟨rfl, by simp [sepBefore, bound, bindChars]⟩
  | cons o rest ih =>
    obtain ⟨ih1, ih2⟩ := ih (fun x hx => hL x (List.mem_cons_of_mem _ hx))
    have ho := hL o (List.mem_cons_self _ _)
    have hw : placeholders (sep ++ wrapMember d o.text) = o.args.length := by
      rw [placeholders_append, hsep, placeholders_wrapMember, ho, Nat.zero_add]
    constructor
    · simp only [List.map_cons, sepBefore, List.flatten_cons, List.length_append]
      rw [placeholders_append, hw, ih1]
    · simp only [List.map_cons, sepBefore, List.flatten_cons]
      rw [bound_append enc _ _ _ _ hw, ih2, bound_plain_left enc _ _ _ hsep,
        bound_wrapMember enc d _ _ ho]

theorem joined_bound (enc : V → String) (sep : String) (hsep : placeholders sep = 0)
    (d : Dialect) (L : List (Rendering ε V))
    (hL : ∀ o ∈ L, placeholders o.text = o.args.length) :
    placeholders (joined sep (L.map (fun o => wrapMember d o.text))) =
      ((L.map (fun o => o.args)).flatten).length ∧
    bound enc (joined sep (L.map (fun o => wrapMember d o.text)))
        ((L.map (fun o => o.args)).flatten) =
      joined sep (L.map (fun o => wrapMember d (bound enc o.text o.args))) := by
  cases L with
  | nil => exact ⟨rfl, by simp [joined, bound, bindChars]⟩
  | cons o rest =>
    obtain ⟨h1, h2⟩ := sepBefore_bound enc sep hsep d rest
      (fun x hx => hL x (List.mem_cons_of_mem _ hx))
    have ho := hL o (List.mem_cons_self _ _)
    have hw : placeholders (wrapMember d o.text) = o.args.length := by
      rw [placeholders_wrapMember, ho]
    constructor
    · simp only [List.map_cons, joined_cons, List.flatten_cons, List.length_append]
      rw [placeholders_append, hw, h1]
    · simp only [List.map_cons, joined_cons, List.flatten_cons]
      rw [bound_append enc _ _ _ _ hw, h2, bound_wrapMember enc d _ _ ho]

theorem placeholders_sepBefore_plain (sep : String) (hsep : placeholders sep = 0)
    (xs : List String) (hxs : ∀ x ∈ xs, placeholders x = 0) :
    placeholders (sepBefore sep xs) = 0 := by
  induction xs with
  | nil => rfl
  | cons x rest ih =>
    simp only [sepBefore, placeholders_append, hsep, hxs x (List.mem_cons_self _ _),
      ih (fun y hy => hxs y (List.mem_cons_of_mem _ hy))]

theorem placeholders_joined_plain (sep : String) (hsep : placeholders sep = 0)
    (xs : List String) (hxs : ∀ x ∈ xs, placeholders x = 0) :
    placeholders (joined sep xs) = 0 := by
  cases xs with
  | nil => rfl
  | cons x rest =>
    rw [joined_cons, placeholders_append, hxs x (List.mem_cons_self _ _),
      placeholders_sepBefore_plain sep hsep rest (fun y hy => hxs y (List.mem_cons_of_mem _ hy))]

theorem placeholders_orderEntry (e : orderBy) :
    placeholders (orderEntry e) = placeholders e.col := by
  have h1 : placeholders " ASC" = 0 := by decide
  have h2 : placeholders " DESC" = 0 := by decide
  cases h : e.asc <;> simp [orderEntry, h, placeholders_append, h1, h2]

theorem placeholders_orderByClause (es : List orderBy)
    (hes : ∀ e ∈ es, placeholders e.col = 0) : placeholders (orderByClause es) = 0 := by
  cases hcase : es with
  | nil => decide
  | cons e rest =>
    have h1 : placeholders " ORDER BY " = 0 := by decide
    have h2 : placeholders ", " = 0 := by decide
    simp only [orderByClause]
    rw [placeholders_append, h1, placeholders_joined_plain ", " h2]
    intro x hx
    rw [← hcase] at hx
    obtain ⟨e', he', rfl⟩ := List.mem_map.mp hx
    rw [placeholders_orderEntry, hes e' he']

theorem digitChar_ne_placeholder : ∀ k < 10, Nat.digitChar k ≠ '?' := by
  decide

theorem toDigitsCore_no_placeholder (f : Nat) :
    ∀ (n : Nat) (ds : List Char), (∀ c ∈ ds, c ≠ '?') →
      ∀ c ∈ Nat.toDigitsCore 10 f n ds, c ≠ '?' := by
  induction f with
  | zero => intro n ds h; simpa [Nat.toDigitsCore] using h
  | succ f ih =>
    intro n ds h
    have hds : ∀ c ∈ Nat.digitChar (n % 10) :: ds, c ≠ '?' := by
      intro c hc
      rcases List.mem_cons.mp hc with rfl | hc'
      · exact digitChar_ne_placeholder _ (Nat.mod_lt _ (by decide))
      · exact h c hc'
    simp only [Nat.toDigitsCore]
    split_ifs
    · exact hds
    · exact ih _ _ hds

theorem placeholders_repr (n : Nat) : placeholders (Nat.repr n) = 0 := by
  simp only [placeholders, Nat.repr, List.asString, Nat.toDigits]
  rw [List.count_eq_zero]
  intro hmem
  exact toDigitsCore_no_placeholder _ _ [] (by simp) _ hmem rfl

theorem placeholders_limitClause (n : Nat) : placeholders (limitClause n) = 0 := by
  have h1 : placeholders " LIMIT " = 0 := by decide
  by_cases hn : n > 0
  · simp [limitClause, hn, placeholders_append, h1, placeholders_repr]
  · simp only [limitClause, hn, if_false]
    decide

theorem placeholders_clausePart (es : List orderBy) (n : Nat) (outs : List (Rendering ε V))
    (hes : ∀ e ∈ es, placeholders e.col = 0) : placeholders (clausePart es n outs) = 0 := by
  unfold clausePart
  split_ifs
  · decide
  · rw [placeholders_append, placeholders_orderByClause es hes, placeholders_limitClause]

theorem mem_built {outs : List (Rendering ε V)} {o : Rendering ε V} (h : o ∈ built outs) :
    o ∈ outs := by
  induction outs with
  | nil => simp [built] at h
  | cons x rest ih =>
    simp only [built] at h
    split_ifs at h
    · simp only [List.mem_singleton] at h
      rw [h]
      exact List.mem_cons_self _ _
    · rcases List.mem_cons.mp h with rfl | h'
      · exact List.mem_cons_self _ _
      · exact List.mem_cons_of_mem _ (ih h')

end Placeholders

/-! ## Composition -/

section Composition

variable {σ ε V : Type}

theorem Buffer.append_assoc (a b c : Buffer V) :
    (a.append b).append c = a.append (b.append c) := by
  simp [Buffer.append, String.append_assoc]

theorem Buffer.append_new (a : Buffer V) : a.append NewBuffer = a := by
  cases a
  simp [Buffer.append, NewBuffer]

theorem Buffer.writeString_append (a b : Buffer V) (t : String) :
    (a.append b).WriteString t = a.append (b.WriteString t) := by
  simp [Buffer.append, Buffer.WriteString, String.append_assoc]

theorem beforeMember_append (all : Bool) (d : Dialect) (i : Nat) (a b : Buffer V) :
    beforeMember all d i (a.append b) = a.append (beforeMember all d i b) := by
  unfold beforeMember
  by_cases hi : i > 0 <;> by_cases hd : d = Dialect.MySQL <;> cases all <;>
    simp [hi, hd, Buffer.writeString_append]

theorem afterMember_append (d : Dialect) (a b : Buffer V) :
    afterMember d (a.append b) = a.append (afterMember d b) := by
  unfold afterMember
  by_cases hd : d = Dialect.MySQL <;> simp [hd, Buffer.writeString_append]

theorem replayAfter_append (a b : Buffer V) (o : Outcome σ ε V) :
    replayAfter (a.append b) o = replayAfter a (replayAfter b o) := by
  simp [replayAfter, Buffer.append_assoc]

theorem buildLoop_replay (all : Bool) (d : Dialect) (bs : List (Builder σ ε V))
    (hbs : ∀ b ∈ bs, OnlyAppends b) :
    ∀ (i : Nat) (a c : Buffer V) (s : σ),
      union.buildLoop all d i bs (a.append c) s =
        replayAfter a (union.buildLoop all d i bs c s) := by
  induction bs with
  | nil => intro i a c s; simp [union.buildLoop, replayAfter]
  | cons b rest ih =>
    intro i a c s
    have hb := hbs b (List.mem_cons_self _ _)
    have hrest := ih (fun x hx => hbs x (List.mem_cons_of_mem _ hx))
    have hcall : b d (beforeMember all d i (a.append c)) s =
        replayAfter a (b d (beforeMember all d i c) s) := by
      rw [beforeMember_append, hb d (a.append _) s, hb d (beforeMember all d i c) s,
        replayAfter_append]
    cases herr : (b d (beforeMember all d i c) s).err with
    | some e =>
      have herr' : (b d (beforeMember all d i (a.append c)) s).err = some e := by
        rw [hcall]; exact herr
      rw [buildLoop_cons_some all d i b rest _ s e herr',
        buildLoop_cons_some all d i b rest c s e herr, hcall]
      simp [replayAfter, afterMember_append]
    | none =>
      have herr' : (b d (beforeMember all d i (a.append c)) s).err = none := by
        rw [hcall]; exact herr
      rw [buildLoop_cons_none all d i b rest _ s herr',
        buildLoop_cons_none all d i b rest c s herr, hcall]
      simp only [replayAfter, afterMember_append]
      exact hrest _ _ _ _

theorem buildTail_append (u : union σ ε V) (a b : Buffer V) :
    u.buildTail (a.append b) = a.append (u.buildTail b) := by
  unfold union.buildTail
  by_cases ho : u.orderBy.length > 0 <;> by_cases hl : u.limit > 0 <;>
    simp [ho, hl, Buffer.writeString_append]

theorem Build_replay (u : union σ ε V) (d : Dialect) (hbs : ∀ b ∈ u.builder, OnlyAppends b)
    (a c : Buffer V) (s : σ) :
    (u.Build d (a.append c) s).toOutcome = replayAfter a (u.Build d c s).toOutcome := by
  have hloop := buildLoop_replay u.all d u.builder hbs 0 a c s
  unfold union.Build
  cases herr : (union.buildLoop u.all d 0 u.builder c s).err with
  | some e =>
    have herr' : (union.buildLoop u.all d 0 u.builder (a.append c) s).err = some e := by
      rw [hloop]; exact herr
    simp only [herr, herr', hloop]
    simp [replayAfter, herr]
  | none =>
    have herr' : (union.buildLoop u.all d 0 u.builder (a.append c) s).err = none := by
      rw [hloop]; exact herr
    simp only [herr, herr', hloop]
    simp [replayAfter, buildTail_append, herr]

theorem selectStar_onlyAppends : OnlyAppends selectStar := by
  intro d buf s
  simp [selectStar, replayAfter, Buffer.append, Buffer.WriteString, NewBuffer]

theorem selectById_onlyAppends : OnlyAppends selectById := by
  intro d buf s
  simp [selectById, replayAfter, Buffer.append, Buffer.WriteString, Buffer.WriteValue, NewBuffer]

theorem selectByAge_onlyAppends : OnlyAppends selectByAge := by
  intro d buf s
  simp [selectByAge, replayAfter, Buffer.append, Buffer.WriteString, Buffer.WriteValue,
    NewBuffer]

/-- A union with no order-by entry and limit 0, seen as a member, is its
member loop. -/
theorem toBuilder_plain (u : union σ ε V) (ho : u.orderBy = []) (hl : u.limit = 0)
    (d : Dialect) (buf : Buffer V) (s : σ) :
    u.toBuilder d buf s = union.buildLoop u.all d 0 u.builder buf s := by
  unfold union.toBuilder union.Build
  generalize union.buildLoop u.all d 0 u.builder buf s = r
  obtain ⟨err, b, w⟩ := r
  cases err <;> simp [union.buildTail, ho, hl]

theorem Build_toOutcome_congr (u v : union σ ε V) (d : Dialect) (buf : Buffer V) (s : σ)
    (hloop : union.buildLoop u.all d 0 u.builder buf s =
      union.buildLoop v.all d 0 v.builder buf s)
    (ho : u.orderBy = v.orderBy) (hl : u.limit = v.limit) :
    (u.Build d buf s).toOutcome = (v.Build d buf s).toOutcome := by
  unfold union.Build
  rw [hloop]
  generalize union.buildLoop v.all d 0 v.builder buf s = r
  obtain ⟨err, b, w⟩ := r
  cases err <;> simp [union.buildTail, ho, hl]

theorem beforeMember_zero_other (all : Bool) {d : Dialect} (hd : d ≠ Dialect.MySQL)
    (buf : Buffer V) : beforeMember all d 0 buf = buf := by
  simp [beforeMember, hd]

theorem afterMember_other {d : Dialect} (hd : d ≠ Dialect.MySQL) (buf : Buffer V) :
    afterMember d buf = buf := by
  simp [afterMember, hd]

/-- Under a dialect other than MySQL, a loop whose first member is the plain
union over a non-empty `xs` runs like the loop over `xs ++ ys`. -/
theorem buildLoop_nested (all : Bool) {d : Dialect} (hd : d ≠ Dialect.MySQL)
    (xs ys : List (Builder σ ε V)) (hxs : xs ≠ []) (buf : Buffer V) (s : σ) :
    union.buildLoop all d 0
        (({ builder := xs, all := all, orderBy := [], limit := 0 } : union σ ε V).toBuilder :: ys)
        buf s =
      union.buildLoop all d 0 (xs ++ ys) buf s := by
  have hin : ∀ (c : Buffer V) (w : σ),
      ({ builder := xs, all := all, orderBy := [], limit := 0 } : union σ ε V).toBuilder d c w =
        union.buildLoop all d 0 xs c w :=
    fun c w => toBuilder_plain _ rfl rfl d c w
  cases herr : (union.buildLoop all d 0 xs buf s).err with
  | some e =>
    have hcall : (({ builder := xs, all := all, orderBy := [], limit := 0 } :
        union σ ε V).toBuilder d (beforeMember all d 0 buf) s).err = some e := by
      rw [beforeMember_zero_other all hd, hin]; exact herr
    rw [buildLoop_cons_some all d 0 _ ys buf s e hcall, beforeMember_zero_other all hd, hin,
      afterMember_other hd, buildLoop_append_some all d xs ys 0 buf s e herr, ← herr]
  | none =>
    have hcall : (({ builder := xs, all := all, orderBy := [], limit := 0 } :
        union σ ε V).toBuilder d (beforeMember all d 0 buf) s).err = none := by
      rw [beforeMember_zero_other all hd, hin]; exact herr
    obtain ⟨k, hk⟩ : ∃ k, xs.length = k + 1 :=
      Nat.exists_eq_succ_of_ne_zero (fun h0 => hxs (List.length_eq_zero.mp h0))
    rw [buildLoop_cons_none all d 0 _ ys buf s hcall, beforeMember_zero_other all hd, hin,
      afterMember_other hd, buildLoop_append_none all d xs ys 0 buf s herr, hk, Nat.zero_add,
      Nat.zero_add]
    exact (buildLoop_index all d ys k _ _).symm

end Composition

/-! ## The claims -/

section Claims

variable {σ ε V : Type}

/-- C1: under a dialect that does not parenthesize members, a union made by
`Union` or `UnionAll` (no order-by entry, limit 0) whose members all build
successfully appends the members' texts in order with exactly one separator
between neighbours, ` UNION ` for `Union` and ` UNION ALL ` for `UnionAll`,
and none before the first or after the last member. -/
theorem C1_member_separators (d : Dialect) (hd : d ≠ Dialect.MySQL)
    (bs : List (Builder σ ε V)) (outs : List (Rendering ε V))
    (h : List.Forall₂ (Renders d) bs outs) (hok : ∀ o ∈ outs, o.err = none)
    (buf : Buffer V) (s : σ) :
    ((Union bs).Build d buf s).buf.text =
      buf.text ++ joined " UNION " (outs.map (fun o => o.text)) ∧
    ((UnionAll bs).Build d buf s).buf.text =
      buf.text ++ joined " UNION ALL " (outs.map (fun o => o.text)) := by
  constructor
  · rw [(Build_ok (Union bs) d h hok buf s).2.1, map_wrapMember_other hd]
    simp [Union, SEP, orderByClause, limitClause]
  · rw [(Build_ok (UnionAll bs) d h hok buf s).2.1, map_wrapMember_other hd]
    simp [UnionAll, SEP, orderByClause, limitClause]

/-- Witness for C1: three members under PostgreSQL. -/
theorem C1_member_separators_witness :
    Dialect.PostgreSQL ≠ Dialect.MySQL ∧
    List.Forall₂ (Renders Dialect.PostgreSQL) [selectStar, selectById, selectStar]
      [selectStarOut, selectByIdOut, selectStarOut] ∧
    (∀ o ∈ [selectStarOut, selectByIdOut, selectStarOut], o.err = none) ∧
    ((Union [selectStar, selectById, selectStar]).Build Dialect.PostgreSQL NewBuffer 0).buf.text =
      "SELECT * UNION SELECT * FROM t WHERE id = ? UNION SELECT *" ∧
    ((UnionAll [selectStar, selectById, selectStar]).Build Dialect.PostgreSQL
        NewBuffer 0).buf.text =
      "SELECT * UNION ALL SELECT * FROM t WHERE id = ? UNION ALL SELECT *" :=
  have hr : List.Forall₂ (Renders Dialect.PostgreSQL) [selectStar, selectById, selectStar]
      [selectStarOut, selectByIdOut, selectStarOut] :=
    .cons (selectStar_renders _) (.cons (selectById_renders _)
      (.cons (selectStar_renders _) .nil))
  have hok : ∀ o ∈ [selectStarOut, selectByIdOut, selectStarOut], o.err = none := by
    intro o ho
    simp at ho
    rcases ho with rfl | rfl | rfl <;> rfl
  have hc := C1_member_separators Dialect.PostgreSQL (by decide) _ _ hr hok NewBuffer 0
  ⟨by decide, hr, hok, hc.1.trans (by decide), hc.2.trans (by decide)⟩

/-- C2: under MySQL every member's text is wrapped as `( ` text ` )` with the
separator outside the parentheses; under every other dialect the member's
text is written with no wrapper.  Two members that each render `SELECT *`
give `( SELECT * ) UNION ( SELECT * )` under MySQL and
`SELECT * UNION SELECT *` under any other dialect. -/
theorem C2_dialect_parentheses (u : union σ ε V) (d : Dialect)
    (outs : List (Rendering ε V))
    (h : List.Forall₂ (Renders d) u.builder outs) (hok : ∀ o ∈ outs, o.err = none)
    (buf : Buffer V) (s : σ) :
    (d = Dialect.MySQL →
      (u.Build d buf s).buf.text =
        buf.text ++ (joined (SEP u.all) (outs.map (fun o => "( " ++ o.text ++ " )")) ++
          (orderByClause u.orderBy ++ limitClause u.limit))) ∧
    (d ≠ Dialect.MySQL →
      (u.Build d buf s).buf.text =
        buf.text ++ (joined (SEP u.all) (outs.map (fun o => o.text)) ++
          (orderByClause u.orderBy ++ limitClause u.limit))) ∧
    (∀ (a b : Builder σ ε V) (xa xb : List V),
      Renders d a ⟨"SELECT *", xa, none⟩ → Renders d b ⟨"SELECT *", xb, none⟩ →
      ((Union [a, b]).Build d buf s).buf.text =
        buf.text ++ (if d = Dialect.MySQL then "( SELECT * ) UNION ( SELECT * )"
          else "SELECT * UNION SELECT *")) := by
  refine ⟨?_, ?_, ?_⟩
  · intro hd
    rw [(Build_ok u d h hok buf s).2.1]
    simp [wrapMember, hd]
  · intro hd
    rw [(Build_ok u d h hok buf s).2.1, map_wrapMember_other hd]
  · intro a b xa xb ha hb
    have hr : List.Forall₂ (Renders d) (Union [a, b]).builder
        [⟨"SELECT *", xa, none⟩, ⟨"SELECT *", xb, none⟩] :=
      .cons ha (.cons hb .nil)
    rw [(Build_ok (Union [a, b]) d hr (by simp) buf s).2.1]
    by_cases hd : d = Dialect.MySQL <;>
      simp [Union, SEP, joined, wrapMember, hd, orderByClause, limitClause]

/-- Witness for C2: `Union(Select("*"), Select("*"))` under MySQL. -/
theorem C2_dialect_parentheses_witness :
    List.Forall₂ (Renders Dialect.MySQL) (Union [selectStar, selectStar]).builder
      [selectStarOut, selectStarOut] ∧
    (∀ o ∈ [selectStarOut, selectStarOut], o.err = none) ∧
    ((Union [selectStar, selectStar]).Build Dialect.MySQL NewBuffer 0).buf.text =
      "( SELECT * ) UNION ( SELECT * )" :=
  have hr : List.Forall₂ (Renders Dialect.MySQL) (Union [selectStar, selectStar]).builder
      [selectStarOut, selectStarOut] :=
    .cons (selectStar_renders _) (.cons (selectStar_renders _) .nil)
  have hok : ∀ o ∈ [selectStarOut, selectStarOut], o.err = none := by
    intro o ho
    simp at ho
    rw [ho]; rfl
  ⟨hr, hok,
    ((C2_dialect_parentheses (Union [selectStar, selectStar]) Dialect.MySQL _ hr hok
      NewBuffer 0).1 rfl).trans (by decide)⟩

/-- C3: when the members all build successfully and the order-by list is not
empty, `Build` appends ` ORDER BY ` and then the entries, each as its column
followed by ` ASC` or ` DESC`, joined by `, ` in the order of the list, which
is the order in which `OrderBy` added them; when the list is empty no
ORDER BY text is written. -/
theorem C3_order_by (u : union σ ε V) (d : Dialect) (outs : List (Rendering ε V))
    (h : List.Forall₂ (Renders d) u.builder outs) (hok : ∀ o ∈ outs, o.err = none)
    (buf : Buffer V) (s : σ) :
    (u.orderBy ≠ [] →
      (u.Build d buf s).buf.text =
        buf.text ++ joined (SEP u.all) (outs.map (fun o => wrapMember d o.text)) ++
          " ORDER BY " ++
          joined ", " (u.orderBy.map
            (fun o => if o.asc then o.col ++ " ASC" else o.col ++ " DESC")) ++
          limitClause u.limit) ∧
    (u.orderBy = [] →
      (u.Build d buf s).buf.text =
        buf.text ++ joined (SEP u.all) (outs.map (fun o => wrapMember d o.text)) ++
          limitClause u.limit) ∧
    (∀ es : List orderBy,
      (es.foldl (fun v e => v.OrderBy e.col e.asc) u).orderBy = u.orderBy ++ es) := by
  refine ⟨?_, ?_, ?_⟩
  · intro hne
    rw [(Build_ok u d h hok buf s).2.1]
    cases hob : u.orderBy with
    | nil => exact absurd hob hne
    | cons e rest =>
      simp only [orderByClause, String.append_assoc]
      rfl
  · intro he
    rw [(Build_ok u d h hok buf s).2.1, he]
    simp [orderByClause, String.append_assoc]
  · intro es
    induction es generalizing u with
    | nil => simp
    | cons e rest ih =>
      have hr : List.Forall₂ (Renders d) (u.OrderBy e.col e.asc).builder outs := h
      rw [List.foldl_cons, ih _ hr]
      simp [union.OrderBy]

/-- Witness for C3: two entries, added ascending then descending. -/
theorem C3_order_by_witness :
    List.Forall₂ (Renders Dialect.PostgreSQL)
      (((Union [selectStar, selectStar]).OrderBy "id" true).OrderBy "name" false).builder
      [selectStarOut, selectStarOut] ∧
    (∀ o ∈ [selectStarOut, selectStarOut], o.err = none) ∧
    (((Union [selectStar, selectStar]).OrderBy "id" true).OrderBy "name" false).orderBy ≠ [] ∧
    ((((Union [selectStar, selectStar]).OrderBy "id" true).OrderBy "name" false).Build
        Dialect.PostgreSQL NewBuffer 0).buf.text =
      "SELECT * UNION SELECT * ORDER BY id ASC, name DESC" :=
  have hr : List.Forall₂ (Renders Dialect.PostgreSQL)
      (((Union [selectStar, selectStar]).OrderBy "id" true).OrderBy "name" false).builder
      [selectStarOut, selectStarOut] :=
    .cons (selectStar_renders _) (.cons (selectStar_renders _) .nil)
  have hok : ∀ o ∈ [selectStarOut, selectStarOut], o.err = none := by
    intro o ho
    simp at ho
    rw [ho]; rfl
  have hne : (((Union [selectStar, selectStar]).OrderBy "id" true).OrderBy
      "name" false).orderBy ≠ [] := by
    simp [union.OrderBy]
  ⟨hr, hok, hne,
    ((C3_order_by _ Dialect.PostgreSQL _ hr hok NewBuffer 0).1 hne).trans (by decide)⟩

/-- C4: when the members all build successfully, `Build` writes ` LIMIT `
and the limit in decimal as its last text when the limit is greater than
zero, and writes no LIMIT clause when the limit is 0, which is the limit of a
fresh node and of a node after `Limit(0)`. -/
theorem C4_limit (u : union σ ε V) (d : Dialect) (outs : List (Rendering ε V))
    (h : List.Forall₂ (Renders d) u.builder outs) (hok : ∀ o ∈ outs, o.err = none)
    (buf : Buffer V) (s : σ) :
    (u.limit > 0 →
      (u.Build d buf s).buf.text =
        buf.text ++ joined (SEP u.all) (outs.map (fun o => wrapMember d o.text)) ++
          orderByClause u.orderBy ++ " LIMIT " ++ Nat.repr u.limit) ∧
    (u.limit = 0 →
      (u.Build d buf s).buf.text =
        buf.text ++ joined (SEP u.all) (outs.map (fun o => wrapMember d o.text)) ++
          orderByClause u.orderBy) ∧
    ((u.Limit 0).Build d buf s).buf.text =
      buf.text ++ joined (SEP u.all) (outs.map (fun o => wrapMember d o.text)) ++
        orderByClause u.orderBy ∧
    (Union u.builder).limit = 0 ∧ (UnionAll u.builder).limit = 0 := by
  refine ⟨?_, ?_, ?_, rfl, rfl⟩
  · intro hpos
    rw [(Build_ok u d h hok buf s).2.1]
    simp [limitClause, hpos, String.append_assoc]
  · intro hz
    rw [(Build_ok u d h hok buf s).2.1]
    simp [limitClause, hz, String.append_assoc]
  · have hr : List.Forall₂ (Renders d) (u.Limit 0).builder outs := h
    rw [(Build_ok (u.Limit 0) d hr hok buf s).2.1]
    simp [limitClause, union.Limit, String.append_assoc]

/-- Witness for C4: limit 25 after an order-by entry, under MySQL. -/
theorem C4_limit_witness :
    List.Forall₂ (Renders Dialect.MySQL)
      (((Union [selectStar, selectStar]).OrderBy "id" false).Limit 25).builder
      [selectStarOut, selectStarOut] ∧
    (∀ o ∈ [selectStarOut, selectStarOut], o.err = none) ∧
    (((Union [selectStar, selectStar]).OrderBy "id" false).Limit 25).limit > 0 ∧
    ((((Union [selectStar, selectStar]).OrderBy "id" false).Limit 25).Build
        Dialect.MySQL NewBuffer 0).buf.text =
      "( SELECT * ) UNION ( SELECT * ) ORDER BY id DESC LIMIT 25" :=
  have hr : List.Forall₂ (Renders Dialect.MySQL)
      (((Union [selectStar, selectStar]).OrderBy "id" false).Limit 25).builder
      [selectStarOut, selectStarOut] :=
    .cons (selectStar_renders _) (.cons (selectStar_renders _) .nil)
  have hok : ∀ o ∈ [selectStarOut, selectStarOut], o.err = none := by
    intro o ho
    simp at ho
    rw [ho]; rfl
  have hpos : (((Union [selectStar, selectStar]).OrderBy "id" false).Limit 25).limit > 0 := by
    decide
  ⟨hr, hok, hpos,
    ((C4_limit _ Dialect.MySQL _ hr hok NewBuffer 0).1 hpos).trans (by decide)⟩

/-- C5: when the members all build successfully, under every dialect the text
`Build` appends is the member part, then the ORDER BY clause, then the LIMIT
clause, each clause once at most and after the last member; so
`UnionAll(A, B).OrderBy("id", true).Limit(10)` under a dialect other than
MySQL appends `out(A) UNION ALL out(B) ORDER BY id ASC LIMIT 10`. -/
theorem C5_clause_order (u : union σ ε V) (d : Dialect) (outs : List (Rendering ε V))
    (h : List.Forall₂ (Renders d) u.builder outs) (hok : ∀ o ∈ outs, o.err = none)
    (buf : Buffer V) (s : σ) :
    (u.Build d buf s).buf.text =
      buf.text ++ joined (SEP u.all) (outs.map (fun o => wrapMember d o.text)) ++
        orderByClause u.orderBy ++ limitClause u.limit ∧
    (∀ (A B : Builder σ ε V) (oa ob : Rendering ε V),
      d ≠ Dialect.MySQL → Renders d A oa → Renders d B ob → oa.err = none → ob.err = none →
      ((((UnionAll [A, B]).OrderBy "id" true).Limit 10).Build d buf s).buf.text =
        buf.text ++ oa.text ++ " UNION ALL " ++ ob.text ++ " ORDER BY id ASC" ++ " LIMIT 10") := by
  refine ⟨?_, ?_⟩
  · rw [(Build_ok u d h hok buf s).2.1]
    simp [String.append_assoc]
  · intro A B oa ob hd hA hB hoa hob
    have hr : List.Forall₂ (Renders d) (((UnionAll [A, B]).OrderBy "id" true).Limit 10).builder
        [oa, ob] :=
      .cons hA (.cons hB .nil)
    have hok2 : ∀ o ∈ [oa, ob], o.err = none := by
      intro o ho
      simp at ho
      rcases ho with rfl | rfl <;> assumption
    rw [(Build_ok _ d hr hok2 buf s).2.1]
    simp [UnionAll, union.OrderBy, union.Limit, SEP, joined, wrapMember, hd, orderByClause,
      orderEntry, limitClause, String.append_assoc]
    have hlim : (" ORDER BY id ASC" ++ (" LIMIT " ++ Nat.repr 10) : String) =
        " ORDER BY id ASC LIMIT 10" := by decide
    rw [hlim]

/-- Witness for C5: three members, two order-by entries and a limit under
MySQL. -/
theorem C5_clause_order_witness :
    List.Forall₂ (Renders Dialect.MySQL)
      ((((UnionAll [selectStar, selectById, selectStar]).OrderBy "id" true).OrderBy
        "name" false).Limit 10).builder
      [selectStarOut, selectByIdOut, selectStarOut] ∧
    (∀ o ∈ [selectStarOut, selectByIdOut, selectStarOut], o.err = none) ∧
    (((((UnionAll [selectStar, selectById, selectStar]).OrderBy "id" true).OrderBy
        "name" false).Limit 10).Build Dialect.MySQL NewBuffer 0).buf.text =
      "( SELECT * ) UNION ALL ( SELECT * FROM t WHERE id = ? ) UNION ALL ( SELECT * )" ++
        " ORDER BY id ASC, name DESC" ++ " LIMIT 10" :=
  have hr : List.Forall₂ (Renders Dialect.MySQL)
      ((((UnionAll [selectStar, selectById, selectStar]).OrderBy "id" true).OrderBy
        "name" false).Limit 10).builder
      [selectStarOut, selectByIdOut, selectStarOut] :=
    .cons (selectStar_renders _) (.cons (selectById_renders _)
      (.cons (selectStar_renders _) .nil))
  have hok : ∀ o ∈ [selectStarOut, selectByIdOut, selectStarOut], o.err = none := by
    intro o ho
    simp at ho
    rcases ho with rfl | rfl | rfl <;> rfl
  ⟨hr, hok, (C5_clause_order _ Dialect.MySQL _ hr hok NewBuffer 0).1.trans (by decide)⟩

/-- C6: for members that each either succeed or fail with a fixed error,
`Build` returns an error exactly when some member fails; the error is that of
the first failing member, unchanged; the outcome (error, buffer, world) is
that of the member loop run up to and including that member, so no later
member is built and no ORDER BY or LIMIT clause is written; when every member
succeeds `Build` returns `nil`. -/
theorem C6_fail_fast (u : union σ ε V) (d : Dialect)
    (hdet : ∀ b ∈ u.builder, Succeeds d b ∨ ∃ e, FailsWith d b e)
    (buf : Buffer V) (s : σ) :
    ((u.Build d buf s).err ≠ none ↔ ∃ b ∈ u.builder, ∃ e, FailsWith d b e) ∧
    (∀ (pre : List (Builder σ ε V)) (m : Builder σ ε V) (post : List (Builder σ ε V)) (e : ε),
      u.builder = pre ++ m :: post → (∀ b ∈ pre, Succeeds d b) → FailsWith d m e →
      (u.Build d buf s).err = some e ∧
      (u.Build d buf s).toOutcome = union.buildLoop u.all d 0 (pre ++ [m]) buf s) ∧
    ((∀ b ∈ u.builder, Succeeds d b) → (u.Build d buf s).err = none) := by
  refine ⟨?_, ?_, ?_⟩
  · rw [Build_err]
    exact buildLoop_fails_iff u.all d u.builder hdet 0 buf s
  · intro pre m post e hsplit hpre hm
    obtain ⟨h1, h2⟩ := buildLoop_first_failure u.all d pre m post e hpre hm 0 buf s
    rw [← hsplit] at h2
    have hloop : (union.buildLoop u.all d 0 u.builder buf s).err = some e := by rw [h2, h1]
    refine ⟨by rw [Build_err, hloop], ?_⟩
    rw [Build_of_loop_some u d buf s e hloop, h2]
  · intro hall
    rw [Build_err]
    exact buildLoop_succeeds u.all d u.builder hall 0 buf s

/-- Witness for C6: the second of three members fails under MySQL; the
third, which would count its build in the world, is not built, and the
node's ORDER BY and LIMIT are not written. -/
theorem C6_fail_fast_witness :
    (∀ b ∈ failingUnion.builder,
      Succeeds Dialect.MySQL b ∨ ∃ e, FailsWith Dialect.MySQL b e) ∧
    (failingUnion.Build Dialect.MySQL NewBuffer 0).err = some "unsupported value" ∧
    (failingUnion.Build Dialect.MySQL NewBuffer 0).world = 0 ∧
    (failingUnion.Build Dialect.MySQL NewBuffer 0).buf.text = "( SELECT * ) UNION ( SELECT )" :=
  have h := (C6_fail_fast failingUnion Dialect.MySQL (failingUnion_members _) NewBuffer 0).2.1
    [selectStar] failSelect [countingSelect] "unsupported value" rfl
    (by intro b hb; simp at hb; rw [hb]; exact fun _ _ => rfl) (fun _ _ => rfl)
  ⟨failingUnion_members _, h.1, (congrArg Outcome.world h.2).trans (by decide),
    (congrArg (fun o => o.buf.text) h.2).trans (by decide)⟩

/-- C7 as stated fails under MySQL: the only member writes `SELECT` and
fails, leaving the text `( SELECT`; after `Build` the text is `( SELECT )`,
which does not end with what the member wrote. -/
theorem C7_counterexample :
    (callAfter false Dialect.MySQL [] failSelect NewBuffer 0).err = some "unsupported value" ∧
    (callAfter false Dialect.MySQL [] failSelect NewBuffer 0).buf.text = "( SELECT" ∧
    ((Union [failSelect]).Build Dialect.MySQL NewBuffer 0).buf.text = "( SELECT )" ∧
    ((Union [failSelect]).Build Dialect.MySQL NewBuffer 0).buf ≠
      (callAfter false Dialect.MySQL [] failSelect NewBuffer 0).buf ∧
    ¬ ("SELECT".data <:+
        ((Union [failSelect]).Build Dialect.MySQL NewBuffer 0).buf.text.data) := by
  decide

/-- C7, amended: when member `m` is the first whose `Build` fails, `Build`
returns its error; under every dialect other than MySQL the buffer is
exactly as `m` left it; under MySQL `Build` writes the closing ` )` after
`m` has returned, and nothing else. -/
theorem C7_after_failure (u : union σ ε V) (d : Dialect) (pre : List (Builder σ ε V))
    (m : Builder σ ε V) (post : List (Builder σ ε V)) (e : ε) (buf : Buffer V) (s : σ)
    (hsplit : u.builder = pre ++ m :: post)
    (hpre : (union.buildLoop u.all d 0 pre buf s).err = none)
    (hm : (callAfter u.all d pre m buf s).err = some e) :
    (u.Build d buf s).err = some e ∧
    (u.Build d buf s).world = (callAfter u.all d pre m buf s).world ∧
    (d ≠ Dialect.MySQL → (u.Build d buf s).buf = (callAfter u.all d pre m buf s).buf) ∧
    (d = Dialect.MySQL →
      (u.Build d buf s).buf = (callAfter u.all d pre m buf s).buf.WriteString " )") := by
  have h := Build_first_failure u d pre m post e buf s hsplit hpre hm
  have herr : (u.Build d buf s).err = some e := congrArg Outcome.err h
  have hworld : (u.Build d buf s).world = (callAfter u.all d pre m buf s).world := by
    have hw := congrArg Outcome.world h
    exact hw
  have hbuf : (u.Build d buf s).buf = afterMember d (callAfter u.all d pre m buf s).buf :=
    congrArg Outcome.buf h
  refine ⟨herr, hworld, ?_, ?_⟩
  · intro hd
    rw [hbuf]
    simp [afterMember, hd]
  · intro hd
    rw [hbuf]
    simp [afterMember, hd]

/-- Witness for C7 amended: the second of three members fails under
PostgreSQL and the buffer ends with the `SELECT` it wrote. -/
theorem C7_after_failure_witness :
    failingUnion.builder = [selectStar] ++ failSelect :: [countingSelect] ∧
    (union.buildLoop failingUnion.all Dialect.PostgreSQL 0 [selectStar] NewBuffer 0).err = none ∧
    (callAfter failingUnion.all Dialect.PostgreSQL [selectStar] failSelect NewBuffer 0).err =
      some "unsupported value" ∧
    (failingUnion.Build Dialect.PostgreSQL NewBuffer 0).err = some "unsupported value" ∧
    (failingUnion.Build Dialect.PostgreSQL NewBuffer 0).buf =
      (callAfter failingUnion.all Dialect.PostgreSQL [selectStar] failSelect NewBuffer 0).buf ∧
    (failingUnion.Build Dialect.PostgreSQL NewBuffer 0).buf.text = "SELECT * UNION SELECT" :=
  have h := C7_after_failure failingUnion Dialect.PostgreSQL [selectStar] failSelect
    [countingSelect] "unsupported value" NewBuffer 0 rfl rfl rfl
  ⟨rfl, rfl, rfl, h.1, h.2.2.1 (by decide), by decide⟩

/-- C8: when the members are deterministic, building the union into a fresh
buffer, and then building the node the first call left into a fresh buffer
again in the world the first call left, gives the same text, the same
arguments and the same error; so does building it in any other world; and
`Build` hands the node back as it received it. -/
theorem C8_rerender (u : union σ ε V) (d : Dialect)
    (hdet : ∀ b ∈ u.builder, Deterministic b) (s : σ) :
    ((u.Build d NewBuffer s).node.Build d NewBuffer (u.Build d NewBuffer s).world).buf.text =
      (u.Build d NewBuffer s).buf.text ∧
    ((u.Build d NewBuffer s).node.Build d NewBuffer (u.Build d NewBuffer s).world).buf.args =
      (u.Build d NewBuffer s).buf.args ∧
    ((u.Build d NewBuffer s).node.Build d NewBuffer (u.Build d NewBuffer s).world).err =
      (u.Build d NewBuffer s).err ∧
    (u.Build d NewBuffer s).node = u ∧
    (∀ s' : σ, (u.Build d NewBuffer s').err = (u.Build d NewBuffer s).err ∧
      (u.Build d NewBuffer s').buf = (u.Build d NewBuffer s).buf) := by
  rw [Build_node]
  obtain ⟨he, hb⟩ := Build_deterministic u d hdet NewBuffer (u.Build d NewBuffer s).world s
  refine ⟨by rw [hb], by rw [hb], he, rfl, ?_⟩
  intro s'
  exact Build_deterministic u d hdet NewBuffer s' s

/-- Witness for C8: the first member counts its builds in the world, yet
the second build writes what the first wrote. -/
theorem C8_rerender_witness :
    (∀ b ∈ countingUnion.builder, Deterministic b) ∧
    (countingUnion.Build Dialect.MySQL NewBuffer 0).world = 1 ∧
    ((countingUnion.Build Dialect.MySQL NewBuffer 0).node.Build Dialect.MySQL NewBuffer
        (countingUnion.Build Dialect.MySQL NewBuffer 0).world).buf.text =
      (countingUnion.Build Dialect.MySQL NewBuffer 0).buf.text ∧
    (countingUnion.Build Dialect.MySQL NewBuffer 0).buf.text =
      "( SELECT * ) UNION ALL ( SELECT * FROM t WHERE id = ? ) ORDER BY id ASC LIMIT 3" :=
  have hdet : ∀ b ∈ countingUnion.builder, Deterministic b := by
    intro b hb
    simp [countingUnion, UnionAll, union.OrderBy, union.Limit] at hb
    rcases hb with rfl | rfl <;> exact fun _ _ _ _ => ⟨rfl, rfl⟩
  ⟨hdet, by decide, (C8_rerender countingUnion Dialect.MySQL hdet 0).1, by decide⟩

/-- C9: when the members all build successfully, the argument list after
`Build` on an empty buffer is the concatenation of the members' argument
lists in member order, under every dialect and whatever the order-by entries
and the limit; on any buffer `Build` appends exactly those arguments. -/
theorem C9_argument_order (u : union σ ε V) (d : Dialect) (outs : List (Rendering ε V))
    (h : List.Forall₂ (Renders d) u.builder outs) (hok : ∀ o ∈ outs, o.err = none)
    (s : σ) :
    (u.Build d NewBuffer s).buf.args = (outs.map (fun o => o.args)).flatten ∧
    (∀ buf : Buffer V,
      (u.Build d buf s).buf.args = buf.args ++ (outs.map (fun o => o.args)).flatten) := by
  refine ⟨?_, fun buf => (Build_ok u d h hok buf s).2.2⟩
  rw [(Build_ok u d h hok NewBuffer s).2.2]
  simp [NewBuffer]

/-- Witness for C9: three members binding one, no and two values. -/
theorem C9_argument_order_witness :
    List.Forall₂ (Renders Dialect.MySQL) boundUnion.builder
      [selectByIdOut, selectStarOut, selectByAgeOut] ∧
    (∀ o ∈ [selectByIdOut, selectStarOut, selectByAgeOut], o.err = none) ∧
    (boundUnion.Build Dialect.MySQL NewBuffer 0).buf.args = [7, 18, 65] :=
  have hr : List.Forall₂ (Renders Dialect.MySQL) boundUnion.builder
      [selectByIdOut, selectStarOut, selectByAgeOut] :=
    .cons (selectById_renders _) (.cons (selectStar_renders _)
      (.cons (fun _ _ => ⟨rfl, rfl⟩) .nil))
  have hok : ∀ o ∈ [selectByIdOut, selectStarOut, selectByAgeOut], o.err = none := by
    intro o ho
    simp at ho
    rcases ho with rfl | rfl | rfl <;> rfl
  ⟨hr, hok, (C9_argument_order boundUnion Dialect.MySQL _ hr hok 0).1.trans (by decide)⟩

/-- C10 as stated fails: the order-by column is written verbatim, so a column
`?` adds a placeholder that has no argument.  The only member binds one value
to its one placeholder; the union's text has two placeholders and its
argument list one element. -/
theorem C10_counterexample :
    Renders Dialect.PostgreSQL selectById selectByIdOut ∧
    placeholders selectByIdOut.text = selectByIdOut.args.length ∧
    (((Union [selectById]).OrderBy "?" true).Build Dialect.PostgreSQL NewBuffer 0).buf.text =
      "SELECT * FROM t WHERE id = ? ORDER BY ? ASC" ∧
    placeholders
      (((Union [selectById]).OrderBy "?" true).Build Dialect.PostgreSQL NewBuffer 0).buf.text = 2 ∧
    (((Union [selectById]).OrderBy "?" true).Build Dialect.PostgreSQL NewBuffer 0).buf.args = [7] :=
  ⟨selectById_renders _, by decide, by decide, by decide, by decide⟩

/-- C10, amended: when no order-by column contains a placeholder marker and
each member's text has as many placeholders as the member has arguments, the
text compiled by `Build` has exactly as many placeholders as the argument
list has elements, and binding the Nth placeholder to the Nth argument gives
every member's placeholders the arguments the member bound them to: the
bound text is the union's composition of the members' bound texts. -/
theorem C10_placeholders (u : union σ ε V) (d : Dialect) (outs : List (Rendering ε V))
    (h : List.Forall₂ (Renders d) u.builder outs)
    (hm : ∀ o ∈ outs, placeholders o.text = o.args.length)
    (hcol : ∀ e ∈ u.orderBy, placeholders e.col = 0) (s : σ) :
    placeholders (u.Build d NewBuffer s).buf.text = (u.Build d NewBuffer s).buf.args.length ∧
    (∀ enc : V → String,
      bound enc (u.Build d NewBuffer s).buf.text (u.Build d NewBuffer s).buf.args =
        joined (SEP u.all)
          ((built outs).map (fun o => wrapMember d (bound enc o.text o.args))) ++
        clausePart u.orderBy u.limit outs) := by
  have hb := (Build_eq u d h NewBuffer s).2
  have htext : (u.Build d NewBuffer s).buf.text =
      memberPart u.all d outs ++ clausePart u.orderBy u.limit outs := by
    rw [hb]; simp [NewBuffer]
  have hargs : (u.Build d NewBuffer s).buf.args = memberArgs outs := by
    rw [hb]; simp [NewBuffer]
  have hbuilt : ∀ o ∈ built outs, placeholders o.text = o.args.length :=
    fun o ho => hm o (mem_built ho)
  have hclause := placeholders_clausePart u.orderBy u.limit outs hcol
  rw [htext, hargs]
  unfold memberPart memberArgs
  constructor
  · rw [placeholders_append, hclause, Nat.add_zero]
    exact (joined_bound (fun _ => "") (SEP u.all) (placeholders_SEP _) d _ hbuilt).1
  · intro enc
    obtain ⟨h1, h2⟩ := joined_bound enc (SEP u.all) (placeholders_SEP _) d _ hbuilt
    rw [bound_plain_right enc _ _ _ h1 hclause]
    exact congrArg (fun t => t ++ clausePart u.orderBy u.limit outs) h2

/-- Witness for C10 amended: three members binding one, no and two values
under MySQL, with an order-by entry and a limit; encoding each argument in
decimal puts every value where its member had its placeholder. -/
theorem C10_placeholders_witness :
    List.Forall₂ (Renders Dialect.MySQL) boundUnion.builder
      [selectByIdOut, selectStarOut, selectByAgeOut] ∧
    (∀ o ∈ [selectByIdOut, selectStarOut, selectByAgeOut],
      placeholders o.text = o.args.length) ∧
    (∀ e ∈ boundUnion.orderBy, placeholders e.col = 0) ∧
    placeholders (boundUnion.Build Dialect.MySQL NewBuffer 0).buf.text =
      (boundUnion.Build Dialect.MySQL NewBuffer 0).buf.args.length ∧
    bound Nat.repr (boundUnion.Build Dialect.MySQL NewBuffer 0).buf.text
        (boundUnion.Build Dialect.MySQL NewBuffer 0).buf.args =
      "( SELECT * FROM t WHERE id = 7 ) UNION ( SELECT * )" ++
        " UNION ( SELECT * FROM t WHERE age > 18 AND age < 65 ) ORDER BY id DESC LIMIT 10" :=
  have hr : List.Forall₂ (Renders Dialect.MySQL) boundUnion.builder
      [selectByIdOut, selectStarOut, selectByAgeOut] :=
    .cons (selectById_renders _) (.cons (selectStar_renders _)
      (.cons (fun _ _ => ⟨rfl, rfl⟩) .nil))
  have hm : ∀ o ∈ [selectByIdOut, selectStarOut, selectByAgeOut],
      placeholders o.text = o.args.length := by
    intro o ho
    simp at ho
    rcases ho with rfl | rfl | rfl <;> decide
  have hcol : ∀ e ∈ boundUnion.orderBy, placeholders e.col = 0 := by
    intro e he
    simp [boundUnion, Union, union.OrderBy, union.Limit] at he
    rw [he]
    decide
  have hc := C10_placeholders boundUnion Dialect.MySQL _ hr hm hcol 0
  ⟨hr, hm, hcol, hc.1, (hc.2 Nat.repr).trans (by decide)⟩

/-- C11: `OrderBy(col, asc)` appends the entry `(col, asc)` at the end of the
order-by list and leaves members, all flag and limit as they were;
`Limit(n)` sets the limit to `n`, the last call winning, and leaves members,
all flag and order-by list as they were; a node fresh from `Union` has
all = false, one from `UnionAll` has all = true, and both have no order-by
entry, limit 0 and the given members in the given order. -/
theorem C11_fluent_setters (u : union σ ε V) (col : String) (asc : Bool) (n m : Nat)
    (bs : List (Builder σ ε V)) :
    ((u.OrderBy col asc).orderBy = u.orderBy ++ [{ col := col, asc := asc }] ∧
      (u.OrderBy col asc).builder = u.builder ∧
      (u.OrderBy col asc).all = u.all ∧
      (u.OrderBy col asc).limit = u.limit) ∧
    ((u.Limit n).limit = n ∧
      ((u.Limit n).Limit m).limit = m ∧
      (u.Limit n).builder = u.builder ∧
      (u.Limit n).all = u.all ∧
      (u.Limit n).orderBy = u.orderBy) ∧
    ((Union bs).all = false ∧ (Union bs).orderBy = [] ∧ (Union bs).limit = 0 ∧
      (Union bs).builder = bs) ∧
    ((UnionAll bs).all = true ∧ (UnionAll bs).orderBy = [] ∧ (UnionAll bs).limit = 0 ∧
      (UnionAll bs).builder = bs) := by
  refine ⟨⟨rfl, rfl, rfl, rfl⟩, ⟨rfl, rfl, rfl, rfl, rfl⟩, ⟨rfl, rfl, rfl, rfl⟩, ?_⟩
  exact ⟨rfl, rfl, rfl, rfl⟩

/-- C12 as stated fails: `Union` is variadic and takes no argument as well;
the node then holds no member, and `Build` succeeds and writes the ORDER BY
and LIMIT clauses with nothing before them. -/
theorem C12_counterexample :
    (Union ([] : List (Builder Nat String Nat))).builder.length = 0 ∧
    (UnionAll ([] : List (Builder Nat String Nat))).builder.length = 0 ∧
    emptyUnion.builder.length = 0 ∧
    (emptyUnion.Build Dialect.PostgreSQL NewBuffer 0).err = none ∧
    (emptyUnion.Build Dialect.PostgreSQL NewBuffer 0).buf.text = " ORDER BY id ASC LIMIT 5" := by
  decide

/-- C12, amended: `Union` and `UnionAll` keep the members they are given, so
a node made from at least one child builder holds at least one; for a node
with at least one member `Build` writes the first member's wrapped text
right after what the buffer held, and the ORDER BY and LIMIT clauses only
after the members built; for a node with no member `Build` writes the
ORDER BY and LIMIT clauses alone. -/
theorem C12_member_before_clauses (u : union σ ε V) (d : Dialect)
    (outs : List (Rendering ε V)) (h : List.Forall₂ (Renders d) u.builder outs)
    (hne : u.builder ≠ []) (buf : Buffer V) (s : σ) :
    (∃ (o : Rendering ε V) (rest : List (Rendering ε V)),
      outs.head? = some o ∧ built outs = o :: rest ∧
      (u.Build d buf s).buf.text =
        buf.text ++ wrapMember d o.text ++
          sepBefore (SEP u.all) (rest.map (fun x => wrapMember d x.text)) ++
          clausePart u.orderBy u.limit outs) ∧
    (∀ bs : List (Builder σ ε V), bs ≠ [] →
      1 ≤ (Union bs).builder.length ∧ 1 ≤ (UnionAll bs).builder.length) ∧
    (∀ v : union σ ε V, v.builder = [] →
      (v.Build d buf s).err = none ∧
      (v.Build d buf s).buf.text = buf.text ++ orderByClause v.orderBy ++ limitClause v.limit) := by
  refine ⟨?_, ?_, ?_⟩
  · have hb := (Build_eq u d h buf s).2
    cases houts : outs with
    | nil =>
      rw [houts] at h
      cases hbs : u.builder with
      | nil => exact absurd hbs hne
      | cons b bs => rw [hbs] at h; cases h
    | cons o os =>
      have hbuilt : built (o :: os) = o :: (if o.err.isSome then [] else built os) := by
        by_cases ho : o.err.isSome <;> simp [built, ho]
      refine ⟨o, if o.err.isSome then [] else built os, rfl, hbuilt, ?_⟩
      rw [hb, houts]
      simp only [memberPart, hbuilt, List.map_cons, joined_cons, String.append_assoc]
  · intro bs hbs
    have hlen : 1 ≤ bs.length := List.length_pos.mpr hbs
    exact ⟨hlen, hlen⟩
  · intro v hv
    have hr : List.Forall₂ (Renders d) v.builder ([] : List (Rendering ε V)) := by
      rw [hv]; exact .nil
    obtain ⟨he, hb⟩ := Build_eq v d hr buf s
    refine ⟨by rw [he]; rfl, ?_⟩
    rw [hb]
    simp [memberPart, built, joined, clausePart, firstError, String.append_assoc]

/-- Witness for C12 amended: the text starts with the first member's wrapped
text and the clauses follow the last member. -/
theorem C12_member_before_clauses_witness :
    List.Forall₂ (Renders Dialect.MySQL) boundUnion.builder
      [selectByIdOut, selectStarOut, selectByAgeOut] ∧
    boundUnion.builder ≠ [] ∧
    (∃ (o : Rendering String Nat) (rest : List (Rendering String Nat)),
      [selectByIdOut, selectStarOut, selectByAgeOut].head? = some o ∧
      built [selectByIdOut, selectStarOut, selectByAgeOut] = o :: rest ∧
      (boundUnion.Build Dialect.MySQL NewBuffer 0).buf.text =
        (NewBuffer : Buffer Nat).text ++ wrapMember Dialect.MySQL o.text ++
          sepBefore (SEP boundUnion.all) (rest.map (fun x => wrapMember Dialect.MySQL x.text)) ++
          clausePart boundUnion.orderBy boundUnion.limit
            [selectByIdOut, selectStarOut, selectByAgeOut]) ∧
    (boundUnion.Build Dialect.MySQL NewBuffer 0).buf.text =
      "( SELECT * FROM t WHERE id = ? ) UNION ( SELECT * )" ++
        " UNION ( SELECT * FROM t WHERE age > ? AND age < ? ) ORDER BY id DESC LIMIT 10" :=
  have hr : List.Forall₂ (Renders Dialect.MySQL) boundUnion.builder
      [selectByIdOut, selectStarOut, selectByAgeOut] :=
    .cons (selectById_renders _) (.cons (selectStar_renders _)
      (.cons (fun _ _ => ⟨rfl, rfl⟩) .nil))
  have hne : boundUnion.builder ≠ [] := by
    simp [boundUnion, Union, union.OrderBy, union.Limit]
  ⟨hr, hne,
    (C12_member_before_clauses boundUnion Dialect.MySQL _ hr hne NewBuffer 0).1, by decide⟩

/-- C13: when each member only appends to the buffer, then for every
dialect, union and initial buffer content (text `t0`, arguments `a0`), after
`Build` the text is `t0` followed by the text the same `Build` writes into an
empty buffer and the argument list is `a0` followed by the arguments it
writes into an empty buffer; the error and the world are the same as well;
success of the members is not assumed. -/
theorem C13_append_only (u : union σ ε V) (d : Dialect)
    (hbs : ∀ b ∈ u.builder, OnlyAppends b) (t0 : String) (a0 : List V) (s : σ) :
    (u.Build d ⟨t0, a0⟩ s).buf.text = t0 ++ (u.Build d NewBuffer s).buf.text ∧
    (u.Build d ⟨t0, a0⟩ s).buf.args = a0 ++ (u.Build d NewBuffer s).buf.args ∧
    (u.Build d ⟨t0, a0⟩ s).err = (u.Build d NewBuffer s).err ∧
    (u.Build d ⟨t0, a0⟩ s).world = (u.Build d NewBuffer s).world := by
  have h := Build_replay u d hbs ⟨t0, a0⟩ NewBuffer s
  rw [Buffer.append_new] at h
  have herr := congrArg Outcome.err h
  have hbuf := congrArg Outcome.buf h
  have hworld := congrArg Outcome.world h
  refine ⟨?_, ?_, herr, hworld⟩
  · exact congrArg Buffer.text hbuf
  · exact congrArg Buffer.args hbuf

/-- Witness for C13: a buffer that already holds a text and an argument. -/
theorem C13_append_only_witness :
    (∀ b ∈ boundUnion.builder, OnlyAppends b) ∧
    (boundUnion.Build Dialect.PostgreSQL ⟨"EXPLAIN ", [1]⟩ 0).buf.text =
      "EXPLAIN " ++ (boundUnion.Build Dialect.PostgreSQL NewBuffer 0).buf.text ∧
    (boundUnion.Build Dialect.PostgreSQL ⟨"EXPLAIN ", [1]⟩ 0).buf.args =
      [1] ++ (boundUnion.Build Dialect.PostgreSQL NewBuffer 0).buf.args ∧
    (boundUnion.Build Dialect.PostgreSQL ⟨"EXPLAIN ", [1]⟩ 0).buf.args = [1, 7, 18, 65] :=
  have hbs : ∀ b ∈ boundUnion.builder, OnlyAppends b := by
    intro b hb
    simp [boundUnion, Union, union.OrderBy, union.Limit] at hb
    rcases hb with rfl | rfl | rfl
    · exact selectById_onlyAppends
    · exact selectStar_onlyAppends
    · exact selectByAge_onlyAppends
  have hc := C13_append_only boundUnion Dialect.PostgreSQL hbs "EXPLAIN " [1] 0
  ⟨hbs, hc.1, hc.2.1, by decide⟩

/-- C14: under every dialect other than MySQL, for every flag value and
member lists `xs` (not empty) and `ys`, the union whose first member is the
union over `xs` with the same flag, no order-by entry and limit 0, followed
by the members `ys`, renders the same text and argument list as the flat
union over `xs ++ ys` with the same flag, order-by entries and limit; the
error and the world are the same too, whether or not the members succeed. -/
theorem C14_nested_flatten (d : Dialect) (hd : d ≠ Dialect.MySQL) (all : Bool)
    (xs ys : List (Builder σ ε V)) (hxs : xs ≠ []) (entries : List orderBy) (limit : Nat)
    (buf : Buffer V) (s : σ) :
    (({ builder :=
          ({ builder := xs, all := all, orderBy := [], limit := 0 } : union σ ε V).toBuilder :: ys,
        all := all, orderBy := entries, limit := limit } : union σ ε V).Build d buf s).toOutcome =
      (({ builder := xs ++ ys, all := all, orderBy := entries, limit := limit } :
        union σ ε V).Build d buf s).toOutcome ∧
    (({ builder :=
          ({ builder := xs, all := all, orderBy := [], limit := 0 } : union σ ε V).toBuilder :: ys,
        all := all, orderBy := entries, limit := limit } : union σ ε V).Build d buf s).buf.text =
      (({ builder := xs ++ ys, all := all, orderBy := entries, limit := limit } :
        union σ ε V).Build d buf s).buf.text ∧
    (({ builder :=
          ({ builder := xs, all := all, orderBy := [], limit := 0 } : union σ ε V).toBuilder :: ys,
        all := all, orderBy := entries, limit := limit } : union σ ε V).Build d buf s).buf.args =
      (({ builder := xs ++ ys, all := all, orderBy := entries, limit := limit } :
        union σ ε V).Build d buf s).buf.args := by
  have key : ∀ u v : union σ ε V,
      (u.Build d buf s).toOutcome = (v.Build d buf s).toOutcome →
      (u.Build d buf s).buf.text = (v.Build d buf s).buf.text ∧
      (u.Build d buf s).buf.args = (v.Build d buf s).buf.args :=
    fun _ _ h => ⟨congrArg (fun o => o.buf.text) h, congrArg (fun o => o.buf.args) h⟩
  refine ⟨?_, ?_⟩
  · exact Build_toOutcome_congr _ _ d buf s (buildLoop_nested all hd xs ys hxs buf s) rfl rfl
  · exact key _ _
      (Build_toOutcome_congr _ _ d buf s (buildLoop_nested all hd xs ys hxs buf s) rfl rfl)

/-- Witness for C14: a nested `UnionAll` under PostgreSQL against the flat
one, with a member that fails at the end. -/
theorem C14_nested_flatten_witness :
    Dialect.PostgreSQL ≠ Dialect.MySQL ∧
    [selectStar, selectById] ≠ [] ∧
    (nestedUnion.Build Dialect.PostgreSQL NewBuffer 0).toOutcome =
      (flatUnion.Build Dialect.PostgreSQL NewBuffer 0).toOutcome ∧
    (nestedUnion.Build Dialect.PostgreSQL NewBuffer 0).buf.text =
      "SELECT * UNION ALL SELECT * FROM t WHERE id = ?" ++
        " UNION ALL SELECT * FROM t WHERE age > ? AND age < ? UNION ALL SELECT" ∧
    (nestedUnion.Build Dialect.PostgreSQL NewBuffer 0).buf.args = [7, 18, 65] :=
  ⟨by decide, by simp,
    (C14_nested_flatten Dialect.PostgreSQL (by decide) true [selectStar, selectById]
      [selectByAge, failSelect] (by simp) [{ col := "id", asc := true }] 4 NewBuffer 0).1,
    by decide, by decide⟩

/-- C15: for every member `b` and every dialect `Union(b)` and `UnionAll(b)`
build to the same text, arguments, error and world, as do any two nodes that
differ in the all flag only and hold fewer than two members; under a dialect
other than MySQL the outcome of `Union(b)` is that of `b` itself, with no
UNION keyword; under MySQL the text is `( `, what `b` writes, then ` )`. -/
theorem C15_single_member (b : Builder σ ε V) (d : Dialect) (buf : Buffer V) (s : σ) :
    ((Union [b]).Build d buf s).toOutcome = ((UnionAll [b]).Build d buf s).toOutcome ∧
    (∀ (bs : List (Builder σ ε V)) (entries : List orderBy) (limit : Nat), bs.length < 2 →
      (({ builder := bs, all := false, orderBy := entries, limit := limit } :
          union σ ε V).Build d buf s).toOutcome =
        (({ builder := bs, all := true, orderBy := entries, limit := limit } :
          union σ ε V).Build d buf s).toOutcome) ∧
    (d ≠ Dialect.MySQL → ((Union [b]).Build d buf s).toOutcome = b d buf s) ∧
    (d = Dialect.MySQL →
      ((Union [b]).Build d buf s).toOutcome =
        ⟨(b d (buf.WriteString "( ") s).err, (b d (buf.WriteString "( ") s).buf.WriteString " )",
          (b d (buf.WriteString "( ") s).world⟩) ∧
    (∀ o : Rendering ε V, Renders d b o →
      ((Union [b]).Build d buf s).buf.text =
        buf.text ++ (if d = Dialect.MySQL then "( " ++ o.text ++ " )" else o.text) ∧
      ((Union [b]).Build d buf s).buf.args = buf.args ++ o.args ∧
      ((Union [b]).Build d buf s).err = o.err) := by
  have hflag : ∀ (bs : List (Builder σ ε V)), bs.length < 2 →
      union.buildLoop false d 0 bs buf s = union.buildLoop true d 0 bs buf s := by
    intro bs hlen
    match bs, hlen with
    | [], _ => rfl
    | [x], _ =>
      simp only [union.buildLoop, gt_iff_lt, Nat.lt_irrefl, if_false]
    | _ :: _ :: _, h =>
      simp only [List.length_cons] at h
      omega
  have hone : union.buildLoop false d 0 [b] buf s =
      ⟨(b d (beforeMember false d 0 buf) s).err,
        afterMember d (b d (beforeMember false d 0 buf) s).buf,
        (b d (beforeMember false d 0 buf) s).world⟩ := by
    cases herr : (b d (beforeMember false d 0 buf) s).err with
    | some e => rw [buildLoop_cons_some false d 0 b [] buf s e herr]
    | none => rw [buildLoop_cons_none false d 0 b [] buf s herr]; simp [union.buildLoop]
  have hplain : ((Union [b]).Build d buf s).toOutcome = union.buildLoop false d 0 [b] buf s :=
    toBuilder_plain (Union [b]) rfl rfl d buf s
  refine ⟨?_, ?_, ?_, ?_, ?_⟩
  · exact Build_toOutcome_congr (Union [b]) (UnionAll [b]) d buf s
      (hflag [b] (by simp)) rfl rfl
  · intro bs entries limit hlen
    exact Build_toOutcome_congr _ _ d buf s (hflag bs hlen) rfl rfl
  · intro hd
    rw [hplain, hone, beforeMember_zero_other false hd, afterMember_other hd]
  · intro hd
    rw [hplain, hone]
    simp [beforeMember, afterMember, hd]
  · intro o ho
    have hr : List.Forall₂ (Renders d) (Union [b]).builder [o] := .cons ho .nil
    obtain ⟨he, hb⟩ := Build_eq (Union [b]) d hr buf s
    rw [he, hb]
    refine ⟨?_, ?_, ?_⟩
    · cases hoe : o.err <;> by_cases hd : d = Dialect.MySQL <;>
        simp [memberPart, built, joined, clausePart, firstError, hoe, wrapMember, hd, Union,
          orderByClause, limitClause]
    · cases hoe : o.err <;> simp [memberArgs, built, hoe]
    · cases hoe : o.err <;> simp [firstError, hoe]

/-- Witness for C15: a member that fails, under MySQL; `Union` and `UnionAll`
agree, and the text is the member's text in parentheses. -/
theorem C15_single_member_witness :
    ((Union [failSelect]).Build Dialect.MySQL NewBuffer 0).toOutcome =
      ((UnionAll [failSelect]).Build Dialect.MySQL NewBuffer 0).toOutcome ∧
    Renders Dialect.MySQL failSelect ⟨"SELECT", [], some "unsupported value"⟩ ∧
    ((Union [failSelect]).Build Dialect.MySQL NewBuffer 0).buf.text = "( SELECT )" ∧
    ((Union [selectById]).Build Dialect.SQLite3 NewBuffer 0).toOutcome =
      selectById Dialect.SQLite3 NewBuffer 0 :=
  have hr : Renders Dialect.MySQL failSelect ⟨"SELECT", [], some "unsupported value"⟩ :=
    fun _ _ => ⟨rfl, by simp [failSelect, Buffer.WriteString]⟩
  ⟨(C15_single_member failSelect Dialect.MySQL NewBuffer 0).1, hr,
    ((C15_single_member failSelect Dialect.MySQL NewBuffer 0).2.2.2.2 _ hr).1.trans (by decide),
    (C15_single_member selectById Dialect.SQLite3 NewBuffer 0).2.2.1 (by decide)⟩

end Claims

end dbr
